import Mathlib

/-!
Verification of the movie-script-parser annotation pipeline
(src/movie-script-parser.ts and src/types.ts) against its specification.

JavaScript strings are modeled as Lean `String` (a list of characters);
JavaScript numbers are modeled exactly: indices and lengths as `Nat`/`Int`,
fractional arithmetic as `ℚ` (all quantities appearing here are small
integers and exact rationals, on which IEEE double arithmetic is exact for
the comparisons the source performs).  Regex searches and replaces are
translated pattern by pattern into character-list scanners with the same
match semantics (leftmost match, ordered alternation, greedy quantifiers --
all the source patterns are deterministic, so backtracking never changes
the outcome).  The TypeScript enum `Annotation` is modeled as `Annot`
(its source field name on entries is likewise shortened to `annot`);
thrown TypeErrors are modeled with `Except String`.
-/

/-- Closed enumeration of entry classifications (source enum Annotation,
with string values UNKNOWN, META, SCENE, NARRATIVE, SPEECH, SPEECH CUE,
CHARACTER; all of them are truthy as JavaScript values). -/
inductive Annot where
  | UNKNOWN
  | META
  | SCENE
  | NARRATIVE
  | SPEECH
  | SPEECH_CUE
  | CHARACTER
deriving DecidableEq, Repr

/-- Entry record: source type is left curly content: string; annotation: Annotation; locked?: boolean right curly.
The optional locked flag defaults to false. -/
structure Entry where
  content : String
  annot : Annot
  locked : Bool
deriving DecidableEq, Repr

/-- Character list of a string literal. -/
def lit (s : String) : List Char := s.data

/-- Apostrophe character (U+0027). -/
def apos : Char := Char.ofNat 39

/-- JavaScript whitespace class membership (the characters relevant to this
code base; the source data is ASCII text plus markup). -/
def isJsSpace (c : Char) : Bool :=
  c = ' ' || c = '\t' || c = '\n' || c = '\r' || c = '\x0b' || c = '\x0c' || c = '\u00A0'

def isLowerAZ (c : Char) : Bool := 'a' ≤ c && c ≤ 'z'

def isUpperAZ (c : Char) : Bool := 'A' ≤ c && c ≤ 'Z'

def isDigitC (c : Char) : Bool := '0' ≤ c && c ≤ '9'

/-- Membership in the JavaScript regex word class [A-Za-z0-9_]. -/
def isWordC (c : Char) : Bool := isLowerAZ c || isUpperAZ c || isDigitC c || c = '_'

/-- Leading- and trailing-whitespace trim (String.prototype.trim). -/
def trimL (l : List Char) : List Char :=
  ((l.dropWhile isJsSpace).reverse.dropWhile isJsSpace).reverse

/-- Trailing-whitespace trim (String.prototype.trimEnd). -/
def trimEndL (l : List Char) : List Char :=
  (l.reverse.dropWhile isJsSpace).reverse

def jsTrim (s : String) : String := String.mk (trimL s.data)

def jsTrimEnd (s : String) : String := String.mk (trimEndL s.data)

/-- Does the pattern occur as an initial segment of the list. -/
def startsWithL : List Char → List Char → Bool
  | [], _ => true
  | _ :: _, [] => false
  | p :: ps, c :: cs => p = c && startsWithL ps cs

/-- Does the pattern occur as a final segment of the list. -/
def endsWithL (pat s : List Char) : Bool := startsWithL pat.reverse s.reverse

/-- Strip an exact literal from the head of the list, if present. -/
def stripHead : List Char → List Char → Option (List Char)
  | [], s => some s
  | _ :: _, [] => none
  | p :: ps, c :: cs => if p = c then stripHead ps cs else none

/-- Does some suffix of the list satisfy the matcher (regex search). -/
def hasMatch (p : List Char → Bool) : List Char → Bool
  | [] => p []
  | c :: cs => p (c :: cs) || hasMatch p cs

/-- Substring occurrence test (String.prototype.includes and single-literal
regex search). -/
def hasSubstr (sub s : List Char) : Bool := hasMatch (startsWithL sub) s

/-- Index of the first character satisfying p, or -1 when there is none
(String.prototype.search of a character class). -/
def firstIdx (p : Char → Bool) : List Char → Int
  | [] => -1
  | c :: cs =>
    if p c then 0
    else
      let r := firstIdx p cs
      if r = -1 then -1 else r + 1

/-- Source computeIndentation: str.search of non-space-or-end, which is the
number of leading whitespace characters, or the full length when the string
is all whitespace. -/
def computeIndentation (s : String) : Nat := (s.data.takeWhile isJsSpace).length

/-- Source computeUpperCaseFrequency, faithfully: it calls String.search,
which yields the INDEX of the first lower-case and upper-case character
(-1 when absent), not counts; the denominator applies the JavaScript
x or-else 1 idiom, which only replaces an exact zero. -/
def computeUpperCaseFrequency (s : String) : ℚ :=
  let lowerCaseChars : Int := firstIdx isLowerAZ s.data
  let upperCaseChars : Int := firstIdx isUpperAZ s.data
  (upperCaseChars : ℚ) /
    (if lowerCaseChars + upperCaseChars = 0 then (1 : ℚ) else ((lowerCaseChars + upperCaseChars : Int) : ℚ))

/-- Source bold metric: the whole string matches optional spaces, an opening
bold tag, anything, a closing bold tag, optional spaces.  Equivalent to: the
trimmed string starts with the opening tag, ends with the closing tag, and is
long enough that the two tags do not overlap. -/
def computeBold (s : String) : Bool :=
  let t := trimL s.data
  startsWithL (lit "<b>") t && endsWithL (lit "</b>") t && decide (7 ≤ t.length)

/-- Source matchesOnePattern, with each compiled regex represented as a
boolean matcher. -/
def matchesOnePattern (s : List Char) (patterns : List (List Char → Bool)) : Bool :=
  patterns.any fun p => p s

/-- Integer-exact form of the test ucf == 1 performed by the cluster pass:
with u and l the two search indices, the float quotient equals 1 exactly when
the numerator equals the (or-else-1 adjusted) denominator.  The lemma
ucfIsOne_iff below ties this to computeUpperCaseFrequency. -/
def ucfIsOne (s : String) : Bool :=
  let lowerCaseChars : Int := firstIdx isLowerAZ s.data
  let upperCaseChars : Int := firstIdx isUpperAZ s.data
  upperCaseChars = (if lowerCaseChars + upperCaseChars = 0 then 1 else lowerCaseChars + upperCaseChars)

/-! ### Lexicon pattern matchers

Each source regex is translated into a matcher on character lists.  `optC`
consumes an optional single literal character, `chompC` a mandatory one;
`hasMatch`/`atBoundary` provide the unanchored search semantics. -/

/-- Consume c if it is the head (regex c?). -/
def optC (c : Char) : List Char → List Char
  | [] => []
  | d :: ds => if d = c then ds else d :: ds

/-- Require c at the head. -/
def chompC (c : Char) : List Char → Option (List Char)
  | [] => none
  | d :: ds => if d = c then some ds else none

def headIs (c : Char) : List Char → Bool
  | [] => false
  | d :: _ => d = c

/-- Match at the start of the string or immediately after a space: the
source scene patterns open with a group alternating space and start anchor. -/
def afterSpaceScan (p : List Char → Bool) : List Char → Bool
  | [] => false
  | c :: cs => (c = ' ' && p cs) || afterSpaceScan p cs

def atBoundary (p : List Char → Bool) (s : List Char) : Bool := p s || afterSpaceScan p s

/-- Keyword, optional dot, optional colon, then a space (INT and EXT forms). -/
def kwDotColonSpace (kw : List Char) (s : List Char) : Bool :=
  match stripHead kw s with
  | some r => headIs ' ' (optC ':' (optC '.' r))
  | none => false

/-- Keyword, optional colon, then a space (INTERIOR and EXTERIOR forms). -/
def kwColonSpace (kw : List Char) (s : List Char) : Bool :=
  match stripHead kw s with
  | some r => headIs ' ' (optC ':' r)
  | none => false

/-- First keyword, optional dot, slash, second keyword, optional dot,
optional colon, then a space (the EXT/INT, INT/EXT, E/I, I/E forms). -/
def kwSlashKw (kw1 kw2 : List Char) (s : List Char) : Bool :=
  match stripHead kw1 s with
  | none => false
  | some r1 =>
    match chompC '/' (optC '.' r1) with
    | none => false
    | some r2 =>
      match stripHead kw2 r2 with
      | none => false
      | some r3 => headIs ' ' (optC ':' (optC '.' r3))

/-- Source patterns.sceneLexicon: the ten interior/exterior marker regexes. -/
def sceneLexiconMatch (s : List Char) : Bool :=
  atBoundary (kwDotColonSpace (lit "INT")) s ||
  atBoundary (kwColonSpace (lit "INTERIOR")) s ||
  startsWithL (lit "INSIDE ") (s.dropWhile isJsSpace) ||
  atBoundary (kwDotColonSpace (lit "EXT")) s ||
  atBoundary (kwColonSpace (lit "EXTERIOR")) s ||
  startsWithL (lit "OUTSIDE ") (s.dropWhile isJsSpace) ||
  atBoundary (kwSlashKw (lit "EXT") (lit "INT")) s ||
  atBoundary (kwSlashKw (lit "INT") (lit "EXT")) s ||
  atBoundary (kwSlashKw (lit "E") (lit "I")) s ||
  atBoundary (kwSlashKw (lit "I") (lit "E")) s

/-- Match for the bracketed shot regex: bold tag, one or more capitals, a
space, then ANGLE or SHOT. -/
def boldAngleShotAt (s : List Char) : Bool :=
  match stripHead (lit "<b>") s with
  | none => false
  | some r =>
    let caps := r.takeWhile isUpperAZ
    let rest := r.dropWhile isUpperAZ
    decide (1 ≤ caps.length) &&
      (match rest with
       | ' ' :: r2 => startsWithL (lit "ANGLE") r2 || startsWithL (lit "SHOT") r2
       | _ => false)

/-- Match for the music regex: a BY token, at least one character, then a
PLAYS token (the trailing optional dot and spaces can match empty). -/
def byPlaysAt (s : List Char) : Bool :=
  startsWithL (lit " BY ") s && hasSubstr (lit " PLAYS") (s.drop 5)

/-- Source patterns.metaLexicon: production/transition phrases, in source
order.  Plain literals become substring tests; DISSOLVE carries a colon/space
alternation; the SHOT pattern is end-anchored with an optional colon. -/
def metaLexiconMatch (s : List Char) : Bool :=
  hasSubstr (lit "FADE ") s ||
  hasSubstr (lit "FADES ") s ||
  (hasSubstr (lit "DISSOLVE:") s || hasSubstr (lit "DISSOLVE ") s) ||
  hasSubstr (lit "BLACK:") s ||
  hasSubstr (lit "THE END") s ||
  hasSubstr (lit "- END") s ||
  hasSubstr (lit "CREDITS") s ||
  hasSubstr (lit "CUT TO") s ||
  hasSubstr (lit "CUT BACK TO") s ||
  hasSubstr (lit "WIPE TO") s ||
  hasSubstr (lit "INTERCUT") s ||
  hasSubstr (lit "CLOSE ON") s ||
  hasSubstr (lit "CLOSER ON") s ||
  hasSubstr (lit "CLOSE UP") s ||
  hasSubstr (lit "CLOSEUP") s ||
  hasSubstr (lit "WIDER ON") s ||
  hasSubstr (lit "WIDE ON") s ||
  hasSubstr (lit "RESUME ON") s ||
  hasSubstr (lit "BACK ON ") s ||
  hasSubstr (lit "UP ON ") s ||
  hasMatch boldAngleShotAt s ||
  hasSubstr (lit "<b>ANGLE ON ") s ||
  hasSubstr (lit "<b>ON ") s ||
  hasSubstr (lit " LATER") s ||
  hasSubstr (lit "CONTINUED") s ||
  hasSubstr (lit "TRANSITION") s ||
  hasSubstr (lit "MORE") s ||
  (endsWithL (lit " SHOT") s || endsWithL (lit " SHOT:") s) ||
  hasSubstr (lit "THEIR POV") s ||
  hasSubstr (apos :: lit "S POV") s ||
  hasSubstr (lit "SUPER:") s ||
  hasMatch byPlaysAt s ||
  hasSubstr (lit "<b>CAMERA ") s ||
  hasSubstr (lit "<b>ZOOM ") s

/-- Source patterns.speechCue: whole string is optional spaces, optional
bold tag, a parenthesized run of non-parenthesis characters, optional
closing bold tag, optional spaces. -/
def speechCueMatch (s : List Char) : Bool :=
  let r0 := s.dropWhile isJsSpace
  let r1 := match stripHead (lit "<b>") r0 with
    | some r => r
    | none => r0
  match r1 with
  | '(' :: rest =>
    let body := rest.takeWhile fun c => !(c = '(' || c = ')')
    let rem := rest.dropWhile fun c => !(c = '(' || c = ')')
    decide (1 ≤ body.length) &&
      (match rem with
       | ')' :: r2 =>
         let r3 := match stripHead (lit "</b>") r2 with
           | some r => r
           | none => r2
         (r3.dropWhile isJsSpace).isEmpty
       | _ => false)
  | _ => false

/-- Source patterns.numericalOnly: whole string is optional spaces, optional
bold tag, digits, an optional dot, optional closing bold tag, optional
spaces. -/
def numericalOnlyMatch (s : List Char) : Bool :=
  let r0 := s.dropWhile isJsSpace
  let r1 := match stripHead (lit "<b>") r0 with
    | some r => r
    | none => r0
  let r2 := r1.dropWhile isDigitC
  let r3 := optC '.' r2
  let r4 := match stripHead (lit "</b>") r3 with
    | some r => r
    | none => r3
  (r4.dropWhile isJsSpace).isEmpty

/-- Exclusion pattern: line ends in a dangling dash (optionally before a
closing bold tag). -/
def exclDash (s : List Char) : Bool :=
  endsWithL (lit " -") s || endsWithL (lit " -</b>") s

/-- Exclusion pattern: whole line is optional spaces, optional bold tag, a
parenthesized nonempty body (any characters), optional closing bold tag. -/
def exclParen (s : List Char) : Bool :=
  let t := s.dropWhile isJsSpace
  let r := match stripHead (lit "<b>") t with
    | some x => x
    | none => t
  match r with
  | '(' :: rest =>
    (endsWithL (lit ")") rest && decide (2 ≤ rest.length)) ||
    (endsWithL (lit ")</b>") rest && decide (6 ≤ rest.length))
  | _ => false

/-- Exclusion pattern: whole line is optional spaces, optional bold tag, one
or more non-word characters, optional closing bold tag.  Since spaces are
non-word characters, the leading spaces may be absorbed by the body when no
bold tag is present. -/
def exclNoWord (s : List Char) : Bool :=
  (decide (1 ≤ s.length) && s.all fun c => !isWordC c) ||
  (endsWithL (lit "</b>") s && decide (5 ≤ s.length) &&
    ((s.take (s.length - 4)).all fun c => !isWordC c)) ||
  (let t := s.dropWhile isJsSpace
   match stripHead (lit "<b>") t with
   | some r =>
     (decide (1 ≤ r.length) && r.all fun c => !isWordC c) ||
     (endsWithL (lit "</b>") r && decide (5 ≤ r.length) &&
       ((r.take (r.length - 4)).all fun c => !isWordC c))
   | none => false)

/-- Source patterns.characterExclusion as a matcher list. -/
def characterExclusion : List (List Char → Bool) := [exclDash, exclParen, exclNoWord]

/-! ### Character-name cleanup (cleanupCharacterEntry)

The source removes every match of patterns.characterSuffix (an alternation
of parenthesized voice-over/continuation markers, each preceded by optional
whitespace, or a dangling double dash), lower-cases, removes bold tags and
trims.  A dot in the source regex matches any character except a newline;
alternatives are written as lists of optional characters (none = any). -/

/-- Match a fixed-shape alternative at the head of the list; none entries
match any single non-newline character. -/
def matchAlt : List (Option Char) → List Char → Option (List Char)
  | [], s => some s
  | _ :: _, [] => none
  | some p :: ps, c :: cs => if p = c then matchAlt ps cs else none
  | none :: ps, c :: cs => if c = '\n' then none else matchAlt ps cs

/-- The inner alternation of patterns.characterSuffix, in source order.
Dots of the source regex are unescaped and therefore wildcards. -/
def suffixAlts : List (List (Option Char)) :=
  [ [some 'V', none, some 'O', none],
    [some 'V', some 'O'],
    [some 'V', some '/', some 'O'],
    [some 'O', none, some 'S', none],
    [some 'O', none, some 'S'],
    [some 'O', some 'S'],
    [some 'O', some '/', some 'S'],
    [some 'O', none, some 'C', none],
    [some 'O', some 'C'],
    [some 'C', some 'O', some 'N', some 'T', some apos, some 'D'],
    [some 'C', some 'O', some 'N', some 'T'],
    [some 'C', some 'O', some 'N', some 'T', none],
    [some 'C', some 'O', some 'N', some 'T', some apos, some 'D', none],
    [some 'C', some 'O', some 'N', some 'T', some ' ', some apos, some 'D', none],
    [some 'O', some 'F', some 'F'] ]

/-- Try the alternatives in order; an alternative succeeds only when it is
immediately followed by the closing parenthesis (JavaScript regex
backtracking moves to the next alternative otherwise). -/
def altThenParen : List (List (Option Char)) → List Char → Option (List Char)
  | [], _ => none
  | a :: as, s =>
    match matchAlt a s with
    | some (')' :: r) => some r
    | _ => altThenParen as s

/-- Match the whole characterSuffix pattern at the current position:
either optional whitespace, an opening parenthesis, one alternative and the
closing parenthesis; or the literal space-dash-dash. -/
def matchSuffixAt (s : List Char) : Option (List Char) :=
  let afterSp := s.dropWhile isJsSpace
  match afterSp with
  | '(' :: rest =>
    match altThenParen suffixAlts rest with
    | some r => some r
    | none =>
      match stripHead (lit " --") s with
      | some r => some r
      | none => none
  | _ =>
    match stripHead (lit " --") s with
    | some r => some r
    | none => none

/-- Global replacement of patterns.characterSuffix by the empty string:
leftmost matches, scanning resuming after each match.  Fueled so that the
kernel can evaluate it; fuel equal to the length is always sufficient since
every match consumes at least three characters. -/
def removeSuffixF : Nat → List Char → List Char
  | _, [] => []
  | 0, l => l
  | fuel + 1, c :: cs =>
    match matchSuffixAt (c :: cs) with
    | some r => removeSuffixF fuel r
    | none => c :: removeSuffixF fuel cs

def removeSuffixAll (l : List Char) : List Char := removeSuffixF l.length l

/-- ASCII lower-casing (String.prototype.toLowerCase on the ASCII range the
source data uses). -/
def jsToLower (l : List Char) : List Char := l.map Char.toLower

/-- Global removal of patterns.boldTag (every opening or closing bold tag). -/
def removeBoldTags : List Char → List Char
  | '<' :: 'b' :: '>' :: cs => removeBoldTags cs
  | '<' :: '/' :: 'b' :: '>' :: cs => removeBoldTags cs
  | c :: cs => c :: removeBoldTags cs
  | [] => []

/-- Source cleanupCharacterEntry: strip suffixes, lower-case, strip bold
tags, trim.  The result is kept as a character list, since the source only
compares these values for equality. -/
def cleanupCharacterEntry (e : Entry) : List Char :=
  trimL (removeBoldTags (jsToLower (removeSuffixAll e.content.data)))

/-- Removal of the first occurrence of the opening bold tag
(String.prototype.replace with a plain-string pattern). -/
def removeFirstBold : List Char → List Char
  | '<' :: 'b' :: '>' :: cs => cs
  | c :: cs => c :: removeFirstBold cs
  | [] => []

/-! ### Preprocessor -/

/-- Global literal replacement (String.prototype.replace with a global
regex whose pattern is a fixed literal): leftmost matches, scanning
resuming after each match, the replacement never rescanned.  Fueled for
kernel evaluation; fuel equal to the input length always suffices. -/
def replaceAllF (pat rep : List Char) : Nat → List Char → List Char
  | _, [] => []
  | 0, l => l
  | fuel + 1, c :: cs =>
    if pat ≠ [] ∧ startsWithL pat (c :: cs) then
      rep ++ replaceAllF pat rep fuel ((c :: cs).drop pat.length)
    else
      c :: replaceAllF pat rep fuel cs

def replaceAllL (pat rep l : List Char) : List Char := replaceAllF pat rep l.length l

/-- After a newline: consume spaces and a second newline, yielding the
remainder, if the collapse pattern continues here. -/
def findSpNl : List Char → Option (List Char)
  | [] => none
  | '\n' :: rest => some rest
  | ' ' :: rest => findSpNl rest
  | _ => none

/-- Collapse newline-spaces-newline to two newlines, globally, with the
scan resuming after each match (the source regex with an unanchored global
replace). -/
def collapseF : Nat → List Char → List Char
  | _, [] => []
  | 0, l => l
  | fuel + 1, c :: cs =>
    if c = '\n' then
      match findSpNl cs with
      | some rest => '\n' :: '\n' :: collapseF fuel rest
      | none => '\n' :: collapseF fuel cs
    else c :: collapseF fuel cs

def collapseNl (l : List Char) : List Char := collapseF l.length l

/-- Move the spaces that follow an opening bold tag in front of the tag
(the source replace with a function replacement repeating one space per
captured space). -/
def moveBoldSpF : Nat → List Char → List Char
  | _, [] => []
  | 0, l => l
  | fuel + 1, c :: cs =>
    if c = '<' ∧ startsWithL (lit "b>") cs ∧ headIs ' ' (cs.drop 2) then
      let sp := (cs.drop 2).takeWhile fun d => d = ' '
      sp ++ lit "<b>" ++ moveBoldSpF fuel ((cs.drop 2).dropWhile fun d => d = ' ')
    else c :: moveBoldSpF fuel cs

def moveBoldSp (l : List Char) : List Char := moveBoldSpF l.length l

/-- Move the tabs that follow an opening bold tag in front of the tag,
expanded to eight spaces each. -/
def moveBoldTabF : Nat → List Char → List Char
  | _, [] => []
  | 0, l => l
  | fuel + 1, c :: cs =>
    if c = '<' ∧ startsWithL (lit "b>") cs ∧ headIs '\t' (cs.drop 2) then
      let k := ((cs.drop 2).takeWhile fun d => d = '\t').length
      List.replicate (8 * k) ' ' ++ lit "<b>" ++
        moveBoldTabF fuel ((cs.drop 2).dropWhile fun d => d = '\t')
    else c :: moveBoldTabF fuel cs

def moveBoldTab (l : List Char) : List Char := moveBoldTabF l.length l

/-- Source ScriptParser.preprocess, as the composition of its eight
replacements in source order: delete carriage returns, line-break markup to
newlines, tabs to eight spaces, collapse whitespace-only lines, move a
leading closing bold tag to the previous line, move whitespace out of
opening bold tags (space and tab variants), delete empty bold pairs. -/
def preprocess (s : String) : String :=
  let p1 := (s.data.filter fun c => c ≠ '\r')
  let p2 := replaceAllL (lit "<br>") (lit "\n") p1
  let p3 := replaceAllL (lit "<br/>") (lit "\n") p2
  let p4 := replaceAllL (lit "\t") (lit "        ") p3
  let p5 := collapseNl p4
  let p6 := replaceAllL (lit "\n</b>") (lit "</b>\n") p5
  let p7 := moveBoldSp p6
  let p8 := moveBoldTab p7
  String.mk (replaceAllL (lit "<b></b>") [] p8)

/-! ### Entry builder -/

/-- Split into physical lines (String.prototype.split on the newline). -/
def splitNl : List Char → List (List Char)
  | [] => [[]]
  | '\n' :: cs => [] :: splitNl cs
  | c :: cs =>
    match splitNl cs with
    | t :: ts => (c :: t) :: ts
    | [] => [[c]]

/-- Remove the first occurrence of the pre open marker. -/
def removeFirstPreOpen : List Char → List Char
  | '<' :: 'p' :: 'r' :: 'e' :: '>' :: cs => cs
  | c :: cs => c :: removeFirstPreOpen cs
  | [] => []

/-- Remove the first occurrence of the pre close marker. -/
def removeFirstPreClose : List Char → List Char
  | '<' :: '/' :: 'p' :: 'r' :: 'e' :: '>' :: cs => cs
  | c :: cs => c :: removeFirstPreClose cs
  | [] => []

/-- Source discard pass: drop lines that trim exactly to a block marker,
then strip the first occurrence of each marker from the remaining lines
(the source reduce over the discard array applies the markers in order). -/
def discardPass (lines : List String) : List String :=
  (lines.filter fun l => !(jsTrim l = "<pre>" || jsTrim l = "</pre>")).map
    fun l => String.mk (removeFirstPreClose (removeFirstPreOpen l.data))

/-- Walk of the init-and-merge pass: blank lines only bump the blank-run
counter; a non-blank line merges into the previous retained entry when the
counter is zero and the indentations agree (the previous metrics always
belong to the immediately preceding physical line), and otherwise opens a
fresh Unknown, unlocked entry.  cur is the entry still open for merging. -/
def buildLoop : List String → Nat → Nat → Option Entry → List Entry
  | [], _, _, none => []
  | [], _, _, some cur => [cur]
  | l :: ls, blankCount, prevInd, cur =>
    if (jsTrim l).length = 0 then
      buildLoop ls (blankCount + 1) (computeIndentation l) cur
    else
      match cur with
      | some c =>
        if blankCount = 0 ∧ computeIndentation l = prevInd then
          buildLoop ls 0 (computeIndentation l)
            (some { c with content := jsTrimEnd c.content ++ " " ++ jsTrim l })
        else
          c :: buildLoop ls 0 (computeIndentation l) (some ⟨l, .UNKNOWN, false⟩)
      | none => buildLoop ls 0 (computeIndentation l) (some ⟨l, .UNKNOWN, false⟩)

/-- Source init entries and merge pass (the blank-run counter starts at
zero and the initial previous metrics are those of the empty string). -/
def buildEntries (lines : List String) : List Entry := buildLoop lines 0 0 none

/-! ### Indentation cluster analyzer -/

/-- Append an index to the group of its indentation, keeping first-seen key
order (JavaScript Map insertion order). -/
def occAdd (m : List (Nat × List Nat)) (ind i : Nat) : List (Nat × List Nat) :=
  match m with
  | [] => [(ind, [i])]
  | (k, v) :: rest => if k = ind then (k, v ++ [i]) :: rest else (k, v) :: occAdd rest ind i

/-- Collect the indices of entries whose upper-case frequency is exactly one
or whose content is bold, grouped by indentation, together with their total
count. -/
def collectOccAux : List Entry → Nat → List (Nat × List Nat) → Nat → List (Nat × List Nat) × Nat
  | [], _, m, t => (m, t)
  | e :: rest, i, m, t =>
    if ucfIsOne e.content || computeBold e.content then
      collectOccAux rest (i + 1) (occAdd m (computeIndentation e.content) i) (t + 1)
    else
      collectOccAux rest (i + 1) m t

/-- Stable insertion keeping a list sorted by descending size: an element
goes after every element of size at least its own (JavaScript
Array.prototype.sort is stable). -/
def insertDescBy {α : Type} (sz : α → Nat) (x : α) : List α → List α
  | [] => [x]
  | y :: ys => if sz y < sz x then x :: y :: ys else y :: insertDescBy sz x ys

/-- Stable sort by descending size. -/
def sortDescBy {α : Type} (sz : α → Nat) (l : List α) : List α :=
  l.foldl (fun acc x => insertDescBy sz x acc) []

/-- Index groups sorted by descending size (source sameIndentEntries after
its sort). -/
def sortedGroups (l : List Entry) : List (List Nat) :=
  sortDescBy List.length ((collectOccAux l 0 [] 0).1.map Prod.snd)

/-- The acceptance condition of the cluster analysis, in integer-exact form
(the source compares against 0.1, 0.015 and 0.5 of the relevant totals in
floating point; on the integer counts involved those comparisons coincide
with the exact rational ones, which these integer inequalities restate). -/
def clusterGateB (numEntries : Nat) (groups : List (List Nat)) (total : Nat) : Bool :=
  decide (2 ≤ groups.length) &&
  decide (numEntries < 10 * (groups.getD 0 []).length) &&
  decide (3 * numEntries < 200 * (groups.getD 1 []).length) &&
  decide (total < 2 * ((groups.getD 0 []).length + (groups.getD 1 []).length))

/-- Entry lookup (indices produced by the collection pass are in range). -/
def entryAt (l : List Entry) (i : Nat) : Entry := l.getD i ⟨"", .UNKNOWN, false⟩

/-- Overwrite the classification of the entry at an index. -/
def setAnn (l : List Entry) (i : Nat) (a : Annot) : List Entry :=
  match l.get? i with
  | some e => l.set i { e with annot := a }
  | none => l

def setAnnList (l : List Entry) (idxs : List Nat) (a : Annot) : List Entry :=
  idxs.foldl (fun acc i => setAnn acc i a) l

/-- Promote one expansion group: its indices, excluding global index 0 and
entries matching the exclusion lexicon, become CHARACTER and their cleaned
names join the known set. -/
def applyGroup (st : List Entry × List (List Char)) (g : List Nat) :
    List Entry × List (List Char) :=
  (g.filter fun idx =>
      decide (1 ≤ idx) &&
        !matchesOnePattern (entryAt st.1 idx).content.data characterExclusion).foldl
    (fun st2 idx =>
      (setAnn st2.1 idx .CHARACTER, st2.2 ++ [cleanupCharacterEntry (entryAt st2.1 idx)]))
    st

/-- Fixed-point expansion over the remaining groups: any group containing a
known character name is promoted wholesale; the loop body runs at least once
(source do-while) and repeats while some group qualified.  Fuel bounds the
iteration count; one more than the number of remaining groups always
suffices because each iteration removes every qualifying group. -/
def expandLoop : Nat → List Entry → List (List Char) → List (List Nat) → List Entry
  | 0, entries, _, _ => entries
  | fuel + 1, entries, names, remaining =>
    let qualifies := fun (g : List Nat) =>
      g.any fun idx => names.contains (cleanupCharacterEntry (entryAt entries idx))
    let groupsWith := remaining.filter qualifies
    let remaining2 := remaining.filter fun g => !qualifies g
    let st := groupsWith.foldl applyGroup (entries, names)
    if groupsWith.isEmpty then st.1
    else expandLoop fuel st.1 st.2 remaining2

/-- Seeding performed when the clustering is accepted: the largest group
(minus global index 0 and exclusion-lexicon matches) becomes CHARACTER, the
second-largest becomes SCENE unconditionally, and when further groups remain
the fixed-point name expansion runs over them. -/
def seedEntries (l : List Entry) (groups : List (List Nat)) : List Entry :=
  let g0 := groups.getD 0 []
  let g1 := groups.getD 1 []
  let charIdxs := g0.filter fun idx =>
    decide (1 ≤ idx) && !matchesOnePattern (entryAt l idx).content.data characterExclusion
  let l1 := setAnnList l charIdxs .CHARACTER
  let l2 := setAnnList l1 g1 .SCENE
  if 2 < groups.length then
    let names := charIdxs.map fun idx => cleanupCharacterEntry (entryAt l idx)
    expandLoop ((groups.drop 2).length + 1) l2 names (groups.drop 2)
  else l2

/-- Source CHARACTER and SCENES pass.  When the gate rejects, the source
logs the sizes of the two largest groups; with fewer than two groups that
logging dereferences an undefined array element and throws, which the model
renders as an error value. -/
def clusterPass (l : List Entry) : Except String (List Entry) :=
  let ot := collectOccAux l 0 [] 0
  let groups := sortDescBy List.length (ot.1.map Prod.snd)
  if clusterGateB l.length groups ot.2 then .ok (seedEntries l groups)
  else if groups.length < 2 then
    .error "TypeError: cannot read length of undefined group in rejection diagnostics"
  else .ok l

/-! ### Lexicon passes -/

/-- Scene lexicon step: an Unknown or unlocked entry whose content, with the
first opening bold tag removed, matches the scene lexicon becomes SCENE and
locked. -/
def sceneStep (e : Entry) : Entry :=
  if (e.annot = .UNKNOWN ∨ e.locked = false) ∧
      sceneLexiconMatch (removeFirstBold e.content.data) = true then
    { e with annot := .SCENE, locked := true }
  else e

def sceneLexiconPass (l : List Entry) : List Entry := l.map sceneStep

/-- Speech-cue step: an Unknown entry matching the speech-cue pattern
becomes SPEECH_CUE and locked. -/
def cueStep (e : Entry) : Entry :=
  if e.annot = .UNKNOWN ∧ speechCueMatch e.content.data = true then
    { e with annot := .SPEECH_CUE, locked := true }
  else e

def speechCuePass (l : List Entry) : List Entry := l.map cueStep

/-- Sweep one of the speech pass: an Unknown entry directly after a
CHARACTER becomes SPEECH; indices of entries after a CHARACTER and after a
SPEECH_CUE are recorded in two indentation histograms (the previous entry
carried along is the already-updated one, as in the source pass
combinator). -/
def speechSweep1 :
    List Entry → Nat → Option Entry → List (Nat × List Nat) → List (Nat × List Nat) →
    List Entry × List (Nat × List Nat) × List (Nat × List Nat)
  | [], _, _, hA, hB => ([], hA, hB)
  | e :: rest, i, prev?, hA, hB =>
    match prev? with
    | some p =>
      if p.annot = .CHARACTER then
        let e2 := if e.annot = .UNKNOWN then { e with annot := .SPEECH } else e
        let out := speechSweep1 rest (i + 1) (some e2)
          (occAdd hA (computeIndentation e.content) i) hB
        (e2 :: out.1, out.2)
      else if p.annot = .SPEECH_CUE then
        let out := speechSweep1 rest (i + 1) (some e) hA
          (occAdd hB (computeIndentation e.content) i)
        (e :: out.1, out.2)
      else
        let out := speechSweep1 rest (i + 1) (some e) hA hB
        (e :: out.1, out.2)
    | none =>
      let out := speechSweep1 rest (i + 1) (some e) hA hB
      (e :: out.1, out.2)

/-- Set SPEECH at an index if the entry there is still Unknown. -/
def setSpeechIfUnknown (l : List Entry) (i : Nat) : List Entry :=
  match l.get? i with
  | some e => if e.annot = .UNKNOWN then l.set i { e with annot := .SPEECH } else l
  | none => l

/-- Source Flag SPEECH pass: sweep one, then for every indentation present
in both histograms, every still-Unknown entry recorded after a SPEECH_CUE at
that indentation becomes SPEECH.  (The source applies the Unknown filter
before its forEach; the indices are pairwise distinct, so checking at
application time is equivalent, and the enumeration order of the histogram
keys does not affect the result.) -/
def speechPass (l : List Entry) : List Entry :=
  let s1 := speechSweep1 l 0 none [] []
  let keysA := s1.2.1.map Prod.fst
  (s1.2.2.filter fun kv => keysA.contains kv.1).foldl
    (fun acc kv => kv.2.foldl setSpeechIfUnknown acc) s1.1

/-- Meta lexicon step: an unlocked entry currently Unknown, CHARACTER or
SCENE matching the meta lexicon becomes META. -/
def metaStep (e : Entry) : Entry :=
  if e.locked = false ∧
      (e.annot = .UNKNOWN ∨ e.annot = .CHARACTER ∨ e.annot = .SCENE) ∧
      metaLexiconMatch e.content.data = true then
    { e with annot := .META }
  else e

def metaLexiconPass (l : List Entry) : List Entry := l.map metaStep

/-! ### Narrative inference -/

/-- Distinct cleaned names of CHARACTER entries, in first-appearance order. -/
def collectCharacterNames (l : List Entry) : List (List Char) :=
  l.foldl
    (fun acc e =>
      if e.annot = .CHARACTER then
        let n := cleanupCharacterEntry e
        if acc.contains n then acc else acc ++ [n]
      else acc)
    []

/-- Histogram of indentations of Unknown entries whose lower-cased content
contains some known character name. -/
def narrHistAux :
    List Entry → Nat → List (List Char) → List (Nat × List Nat) → List (Nat × List Nat)
  | [], _, _, m => m
  | e :: rest, i, names, m =>
    if e.annot = .UNKNOWN ∧
        (names.any fun n => hasSubstr n (jsToLower e.content.data)) = true then
      narrHistAux rest (i + 1) names (occAdd m (computeIndentation e.content) i)
    else narrHistAux rest (i + 1) names m

/-- Source Find NARRATIVE pass: the most frequent such indentation (ties
resolved by first-appearance order under the stable sort) flags every
Unknown entry at that indentation as NARRATIVE; when the histogram is empty
the comparison against an undefined level never holds and the pass is a
no-op. -/
def narrativePass (l : List Entry) : List Entry :=
  let names := collectCharacterNames l
  let hist := narrHistAux l 0 names []
  let narrInd : Option Nat :=
    ((sortDescBy (fun kv : Nat × List Nat => kv.2.length) hist).head?).map Prod.fst
  l.map fun e =>
    if e.annot = .UNKNOWN ∧ some (computeIndentation e.content) = narrInd then
      { e with annot := .NARRATIVE }
    else e

/-! ### Cleanup, boundary and final passes -/

/-- Source entry removal pass: delete Unknown entries whose content is only
digits, punctuation and bold tags. -/
def removalPass (l : List Entry) : List Entry :=
  l.filter fun e => !(decide (e.annot = .UNKNOWN) && numericalOnlyMatch e.content.data)

/-- Source Flag META entries pass: a while loop turning leading Unknown
entries into META; it reads past the end of the array (a TypeError) when
every entry is Unknown, including the empty case. -/
def boundaryMeta : List Entry → Except String (List Entry)
  | [] => .error "TypeError: cannot read annotation of undefined entry"
  | e :: rest =>
    if e.annot = .UNKNOWN then
      match boundaryMeta rest with
      | .ok r => .ok ({ e with annot := .META } :: r)
      | .error m => .error m
    else .ok (e :: rest)

/-- Source Last SPEECH pass: an unlocked entry directly after a CHARACTER
whose classification is none of SPEECH, CHARACTER, SPEECH_CUE is forced to
SPEECH (the truthiness test on the annotation always passes, the enum being
string-valued). -/
def lastSpeechLoop : Option Entry → List Entry → List Entry
  | _, [] => []
  | prev?, e :: rest =>
    let e2 :=
      match prev? with
      | some p =>
        if p.annot = .CHARACTER ∧ e.locked = false ∧
            e.annot ≠ .SPEECH ∧ e.annot ≠ .CHARACTER ∧ e.annot ≠ .SPEECH_CUE then
          { e with annot := .SPEECH }
        else e
      | none => e
    e2 :: lastSpeechLoop (some e2) rest

def lastSpeechPass (l : List Entry) : List Entry := lastSpeechLoop none l

/-! ### Postprocessing corrector -/

/-- Rounded mean indentation of CHARACTER entries: Math.round of the average
(none when there is no CHARACTER entry, in which case the source comparison
against NaN never holds).  Math.round of a nonnegative value is the floor of
the value plus one half, here as exact integer division. -/
def roundedCharacterIndent (l : List Entry) : Option Nat :=
  let chars := l.filter fun e => decide (e.annot = .CHARACTER)
  match chars.length with
  | 0 => none
  | n + 1 =>
    some ((2 * (chars.map fun e => computeIndentation e.content).sum + (n + 1)) / (2 * (n + 1)))

/-- Comparison of an indentation against the possibly-undefined rounded
mean. -/
def postIndMatches (i : Nat) (r : Option Nat) : Bool :=
  match r with
  | some v => i = v
  | none => false

/-- Which of an adjacent CHARACTER pair is discarded (true: the current,
later entry, which becomes SPEECH; false: the previous one, which becomes
UNKNOWN): with distinct indentations, keep the one equal to the rounded mean
(the current entry tested first), otherwise discard the lower indentation;
with equal indentations, discard the entry of shorter content. -/
def postDiscardCurrent (rounded : Option Nat) (p e : Entry) : Bool :=
  if computeIndentation e.content ≠ computeIndentation p.content then
    if postIndMatches (computeIndentation e.content) rounded then false
    else if postIndMatches (computeIndentation p.content) rounded then true
    else if computeIndentation p.content < computeIndentation e.content then false
    else true
  else decide (e.content.length < p.content.length)

/-- Walk of the duplicate-cue fix: the carried previous entry is the updated
one, so a resolved pair can participate in resolving the next. -/
def postLoop (rounded : Option Nat) : Option Entry → List Entry → List Entry
  | none, [] => []
  | some p, [] => [p]
  | none, e :: rest => postLoop rounded (some e) rest
  | some p, e :: rest =>
    if p.annot = .CHARACTER ∧ e.annot = .CHARACTER then
      if postDiscardCurrent rounded p e then
        p :: postLoop rounded (some { e with annot := .SPEECH }) rest
      else
        { p with annot := .UNKNOWN } :: postLoop rounded (some e) rest
    else p :: postLoop rounded (some e) rest

/-- Source ScriptParser.postprocess. -/
def postprocessPass (l : List Entry) : List Entry :=
  postLoop (roundedCharacterIndent l) none l

/-! ### The pipeline -/

/-- Annotation stages applied to the built entries, in source order. -/
def annotateEntries (entries : List Entry) : Except String (List Entry) :=
  match clusterPass entries with
  | .error m => .error m
  | .ok e1 =>
    let e2 := sceneLexiconPass e1
    let e3 := speechCuePass e2
    let e4 := speechPass e3
    let e5 := metaLexiconPass e4
    let e6 := narrativePass e5
    let e7 := removalPass e6
    match boundaryMeta e7 with
    | .error m => .error m
    | .ok e8 => .ok (postprocessPass (lastSpeechPass e8))

/-- The lines handed to the entry builder for a raw script. -/
def scriptLines (raw : String) : List String :=
  discardPass ((splitNl (preprocess raw).data).map String.mk)

/-- Source ScriptParser.parse (the returned ParsedMovieScript holds exactly
the final entry sequence; the timing wrappers and console logging carry no
data flow, except that the rejection-diagnostics logging and the boundary
walk can throw, which the error results model). -/
def parse (raw : String) : Except String (List Entry) :=
  annotateEntries (buildEntries (scriptLines raw))

/-- Source module-level parseMovieScript: parse, then a read-only diagnosis
that never alters the entries. -/
def parseMovieScript (raw : String) : Except String (List Entry) := parse raw

/-! ### Specification-side definitions and instrumentation -/

/-- The acceptance condition in the words of the specification: at least two
groups; the largest group exceeds ten percent of the total number of
entries; the second-largest exceeds one and a half percent of the total
number of entries; the two largest together exceed fifty percent of the
uppercase-or-bold count. -/
def clusterGateSpec (l : List Entry) : Prop :=
  2 ≤ (sortedGroups l).length ∧
  ((((sortedGroups l).getD 0 []).length : ℚ) > (l.length : ℚ) * (10 / 100)) ∧
  ((((sortedGroups l).getD 1 []).length : ℚ) > (l.length : ℚ) * (15 / 1000)) ∧
  (((((sortedGroups l).getD 0 []).length + ((sortedGroups l).getD 1 []).length : Nat) : ℚ) >
    (((collectOccAux l 0 [] 0).2 : Nat) : ℚ) * (50 / 100))

/-- Instrumented entry builder carrying, for each produced entry, the index
of the first physical line that contributed to it (merges keep the index of
the creating line). -/
def buildLoopIdx : List (Nat × String) → Nat → Nat → Option (Nat × Entry) → List (Nat × Entry)
  | [], _, _, none => []
  | [], _, _, some cur => [cur]
  | (j, l) :: ls, blankCount, prevInd, cur =>
    if (jsTrim l).length = 0 then
      buildLoopIdx ls (blankCount + 1) (computeIndentation l) cur
    else
      match cur with
      | some c =>
        if blankCount = 0 ∧ computeIndentation l = prevInd then
          buildLoopIdx ls 0 (computeIndentation l)
            (some (c.1, { c.2 with content := jsTrimEnd c.2.content ++ " " ++ jsTrim l }))
        else
          c :: buildLoopIdx ls 0 (computeIndentation l) (some (j, ⟨l, .UNKNOWN, false⟩))
      | none => buildLoopIdx ls 0 (computeIndentation l) (some (j, ⟨l, .UNKNOWN, false⟩))

def buildEntriesIdx (lines : List String) : List (Nat × Entry) :=
  buildLoopIdx lines.enum 0 0 none

/-- Locked entries carry one of the two lexicon-locked classifications. -/
def lockedInv (l : List Entry) : Prop :=
  ∀ e ∈ l, e.locked = true → e.annot = Annot.SCENE ∨ e.annot = Annot.SPEECH_CUE

/-- No entry is locked (the state before the scene lexicon pass). -/
def allUnlocked (l : List Entry) : Prop := ∀ e ∈ l, e.locked = false

/-! ### Concrete inputs used by the claim witnesses and counterexamples -/

def exampleScript : String := "hello\n\n A\n\nINT. KITCHEN - DAY"

def exampleOut : List Entry :=
  [⟨"hello", .META, false⟩, ⟨" A", .SCENE, false⟩, ⟨"INT. KITCHEN - DAY", .SCENE, true⟩]

/-- CHARACTER entry for JOHN at indentation ten. -/
def johnShort : Entry := ⟨"          JOHN", .CHARACTER, false⟩

/-- CHARACTER entry for JOHN followed by the continuation marker, at
indentation ten. -/
def johnLong : Entry :=
  ⟨String.mk (lit "          JOHN (CONT" ++ [apos] ++ lit "D)"), .CHARACTER, false⟩

/-- CHARACTER pair with distinct indentations zero and three, whose rounded
mean indentation (two) matches neither. -/
def pairA : Entry := ⟨"A", .CHARACTER, false⟩

def pairB : Entry := ⟨"   B", .CHARACTER, false⟩

/-- The entry component of sweep one of the speech pass, without the
histogram bookkeeping (the histograms do not influence which entries sweep
one rewrites). -/
def speechEntriesGo : Option Entry → List Entry → List Entry
  | _, [] => []
  | prev?, e :: rest =>
    let e2 := match prev? with
      | some p =>
        if p.annot = Annot.CHARACTER ∧ e.annot = Annot.UNKNOWN then { e with annot := Annot.SPEECH }
        else e
      | none => e
    e2 :: speechEntriesGo (some e2) rest

/-- Pointwise relation between the input and output of an in-place
annotation-rewriting pass: same length, contents and locked flags
unchanged, and a classification change only on an entry that was unlocked
or carried the Unknown or CHARACTER classification. -/
def stepShape (A B : List Entry) : Prop :=
  B.length = A.length ∧
  ∀ j e2, B.get? j = some e2 →
    ∃ e, A.get? j = some e ∧ e2.content = e.content ∧ e2.locked = e.locked ∧
      (e2.annot = e.annot ∨
        (e.locked = false ∨ e.annot = Annot.UNKNOWN ∨ e.annot = Annot.CHARACTER))

/-! ## Theorems -/

/-- C1: the claim states that for every input producing at least one entry
the pipeline runs to completion; in fact the single-line script hello
produces one entry, yields a single indentation group, and the rejection
branch of the cluster analysis then dereferences an undefined array element
and throws; the leading-Meta boundary walk likewise overruns the array
whenever every entry is still Unknown. -/
theorem c1_pipeline_crashes :
    (buildEntries (scriptLines "hello")).length = 1 ∧
    parse "hello" =
      Except.error "TypeError: cannot read length of undefined group in rejection diagnostics" ∧
    boundaryMeta [⟨"x", .UNKNOWN, false⟩] =
      Except.error "TypeError: cannot read annotation of undefined entry" :=
  ⟨rfl, rfl, rfl⟩

/-- C2: on the adjacent equally-indented CHARACTER pair JOHN and
JOHN with a CONT D continuation marker the corrector keeps the LONGER entry as CHARACTER and
redesignates the shorter, earlier one as UNKNOWN -- the opposite of the
claimed resolution (shorter keeps CHARACTER, longer becomes SPEECH), and
contrary to the source comment that says to keep the shortest entry. -/
theorem c2_postprocess_keeps_longer :
    postprocessPass [johnShort, johnLong] =
      [{ johnShort with annot := .UNKNOWN }, johnLong] ∧
    johnShort.content.length < johnLong.content.length ∧
    computeIndentation johnShort.content = 10 ∧
    computeIndentation johnLong.content = 10 :=
  ⟨rfl, by decide, by decide, by decide⟩

/-- C4: computeUpperCaseFrequency is not the claimed fraction of upper-case
letters among cased letters: String.search returns the index of the first
match, not a count, so the all-uppercase string two-spaces-JOHN evaluates to
two, not one, and in particular the value is not even bounded by one. -/
theorem c4_ucf_not_a_ratio :
    computeUpperCaseFrequency "  JOHN" = 2 ∧ ¬ computeUpperCaseFrequency "  JOHN" ≤ 1 := by
  have hl : firstIdx isLowerAZ "  JOHN".data = -1 := by decide
  have hu : firstIdx isUpperAZ "  JOHN".data = 2 := by decide
  have h : computeUpperCaseFrequency "  JOHN" = 2 := by
    simp only [computeUpperCaseFrequency, hl, hu]
    norm_num
  exact ⟨h, by rw [h]; norm_num⟩

/-- C9 counterexample: the preprocessor is not idempotent even on its own
output: on the two-newline closing-bold-tag script a second application
still moves the closing tag across the leading newline. -/
theorem c9_counterexample :
    preprocess (preprocess "\n\n</b>") ≠ preprocess "\n\n</b>" ∧
    preprocess "\n\n</b>" = "\n</b>\n" ∧
    preprocess (preprocess "\n\n</b>") = "</b>\n\n" :=
  ⟨by decide, rfl, rfl⟩

/-- Unfolding equation for the builder walk on a cons cell. -/
theorem buildLoop_cons (l : String) (ls : List String) (bc pv : Nat) (cur : Option Entry) :
    buildLoop (l :: ls) bc pv cur =
      if (jsTrim l).length = 0 then buildLoop ls (bc + 1) (computeIndentation l) cur
      else
        match cur with
        | some c =>
          if bc = 0 ∧ computeIndentation l = pv then
            buildLoop ls 0 (computeIndentation l)
              (some { c with content := jsTrimEnd c.content ++ " " ++ jsTrim l })
          else c :: buildLoop ls 0 (computeIndentation l) (some ⟨l, .UNKNOWN, false⟩)
        | none => buildLoop ls 0 (computeIndentation l) (some ⟨l, .UNKNOWN, false⟩) := rfl

/-- Builder step: a blank line bumps the counter. -/
theorem buildLoop_step_blank (l : String) (ls : List String) (bc pv : Nat) (cur : Option Entry)
    (h : (jsTrim l).length = 0) :
    buildLoop (l :: ls) bc pv cur = buildLoop ls (bc + 1) (computeIndentation l) cur := by
  rw [buildLoop_cons, if_pos h]

/-- Builder step: the first retained line opens an entry. -/
theorem buildLoop_step_first (l : String) (ls : List String) (bc pv : Nat)
    (h : (jsTrim l).length ≠ 0) :
    buildLoop (l :: ls) bc pv none =
      buildLoop ls 0 (computeIndentation l) (some ⟨l, .UNKNOWN, false⟩) := by
  rw [buildLoop_cons, if_neg h]

/-- Builder step: a non-blank line merges when no blank intervened and the
indentation of the preceding physical line is matched. -/
theorem buildLoop_step_merge (l : String) (ls : List String) (pv : Nat) (c : Entry)
    (h : (jsTrim l).length ≠ 0) (hi : computeIndentation l = pv) :
    buildLoop (l :: ls) 0 pv (some c) =
      buildLoop ls 0 (computeIndentation l)
        (some { c with content := jsTrimEnd c.content ++ " " ++ jsTrim l }) := by
  rw [buildLoop_cons, if_neg h]
  show (if 0 = 0 ∧ computeIndentation l = pv then
      buildLoop ls 0 (computeIndentation l)
        (some { c with content := jsTrimEnd c.content ++ " " ++ jsTrim l })
    else c :: buildLoop ls 0 (computeIndentation l) (some ⟨l, Annot.UNKNOWN, false⟩)) = _
  rw [if_pos ⟨rfl, hi⟩]

/-- Builder step: a non-blank line that cannot merge commits the open entry
and starts a new one. -/
theorem buildLoop_step_new (l : String) (ls : List String) (bc pv : Nat) (c : Entry)
    (h : (jsTrim l).length ≠ 0) (hn : ¬(bc = 0 ∧ computeIndentation l = pv)) :
    buildLoop (l :: ls) bc pv (some c) =
      c :: buildLoop ls 0 (computeIndentation l) (some ⟨l, .UNKNOWN, false⟩) := by
  rw [buildLoop_cons, if_neg h]
  show (if bc = 0 ∧ computeIndentation l = pv then
      buildLoop ls 0 (computeIndentation l)
        (some { c with content := jsTrimEnd c.content ++ " " ++ jsTrim l })
    else c :: buildLoop ls 0 (computeIndentation l) (some ⟨l, Annot.UNKNOWN, false⟩)) = _
  rw [if_neg hn]

/-- C5: two consecutive non-blank lines of equal indentation with no blank
line between them build exactly one merged entry, whose content is the
first line (trailing whitespace dropped) space-joined with the trimmed
second line; with a blank line between them they build two separate
entries. -/
theorem c5_merge_and_split (l1 l2 : String)
    (h1 : (jsTrim l1).length ≠ 0) (h2 : (jsTrim l2).length ≠ 0)
    (hind : computeIndentation l1 = computeIndentation l2) :
    buildEntries [l1, l2] = [⟨jsTrimEnd l1 ++ " " ++ jsTrim l2, .UNKNOWN, false⟩] ∧
    buildEntries [l1, "", l2] = [⟨l1, .UNKNOWN, false⟩, ⟨l2, .UNKNOWN, false⟩] := by
  constructor
  · show buildLoop [l1, l2] 0 0 none = _
    rw [buildLoop_step_first l1 [l2] 0 0 h1,
      buildLoop_step_merge l2 [] (computeIndentation l1) _ h2 hind.symm]
    rfl
  · show buildLoop [l1, "", l2] 0 0 none = _
    rw [buildLoop_step_first l1 ["", l2] 0 0 h1,
      buildLoop_step_blank "" [l2] 0 (computeIndentation l1) _ (by decide),
      buildLoop_step_new l2 [] 1 (computeIndentation "") _ h2 (by simp)]
    rfl

/-- C5 witness at concrete lines. -/
theorem c5_merge_witness :
    buildEntries ["  foo", "  bar"] = [⟨"  foo bar", .UNKNOWN, false⟩] ∧
    buildEntries ["  foo", "", "  bar"] =
      [⟨"  foo", .UNKNOWN, false⟩, ⟨"  bar", .UNKNOWN, false⟩] := by
  have h := c5_merge_and_split "  foo" "  bar" (by decide) (by decide) (by decide)
  refine ⟨?_, h.2⟩
  rw [h.1]
  rfl

/-- Unfolding equations for the corrector walk. -/
theorem postLoop_nil_some (r : Option Nat) (p : Entry) : postLoop r (some p) [] = [p] := rfl

theorem postLoop_cons_none (r : Option Nat) (e : Entry) (rest : List Entry) :
    postLoop r none (e :: rest) = postLoop r (some e) rest := rfl

theorem postLoop_cons_some (r : Option Nat) (p e : Entry) (rest : List Entry) :
    postLoop r (some p) (e :: rest) =
      if p.annot = Annot.CHARACTER ∧ e.annot = Annot.CHARACTER then
        if postDiscardCurrent r p e then p :: postLoop r (some { e with annot := .SPEECH }) rest
        else { p with annot := .UNKNOWN } :: postLoop r (some e) rest
      else p :: postLoop r (some e) rest := rfl

/-- Discard decision on a pair of distinct indentations. -/
theorem postDiscardCurrent_of_ne (r : Option Nat) (p e : Entry)
    (h : computeIndentation e.content ≠ computeIndentation p.content) :
    postDiscardCurrent r p e =
      (if postIndMatches (computeIndentation e.content) r then false
       else if postIndMatches (computeIndentation p.content) r then true
       else if computeIndentation p.content < computeIndentation e.content then false
       else true) := by
  unfold postDiscardCurrent
  rw [if_pos h]

/-- C3 counterexample: an adjacent CHARACTER pair at indentations zero and
three has rounded mean CHARACTER indentation two, matching neither; the
claim would have the lower-indentation (earlier) entry keep CHARACTER and
the later one become SPEECH, but the corrector keeps the HIGHER indentation
and turns the earlier entry into UNKNOWN. -/
theorem c3_counterexample :
    postprocessPass [pairA, pairB] = [{ pairA with annot := .UNKNOWN }, pairB] ∧
    roundedCharacterIndent [pairA, pairB] = some 2 ∧
    computeIndentation pairA.content = 0 ∧
    computeIndentation pairB.content = 3 ∧
    postprocessPass [pairA, pairB] ≠ [pairA, { pairB with annot := .SPEECH }] :=
  ⟨rfl, rfl, rfl, rfl, by decide⟩

/-- C3 amended: on an adjacent CHARACTER pair of distinct indentations the
corrector keeps the entry whose indentation EQUALS the rounded mean
CHARACTER indentation (the later entry is tested first); if neither equals
it exactly, the entry with the HIGHER indentation keeps CHARACTER; the
losing entry becomes SPEECH when it is the later of the pair and UNKNOWN
when it is the earlier. -/
theorem c3_amended_pair_resolution (p e : Entry)
    (hp : p.annot = .CHARACTER) (he : e.annot = .CHARACTER)
    (hne : computeIndentation e.content ≠ computeIndentation p.content) :
    postprocessPass [p, e] =
      if postIndMatches (computeIndentation e.content) (roundedCharacterIndent [p, e]) then
        [{ p with annot := .UNKNOWN }, e]
      else if postIndMatches (computeIndentation p.content) (roundedCharacterIndent [p, e]) then
        [p, { e with annot := .SPEECH }]
      else if computeIndentation p.content < computeIndentation e.content then
        [{ p with annot := .UNKNOWN }, e]
      else [p, { e with annot := .SPEECH }] := by
  show postLoop (roundedCharacterIndent [p, e]) none [p, e] = _
  rw [postLoop_cons_none, postLoop_cons_some, if_pos ⟨hp, he⟩,
    postDiscardCurrent_of_ne _ _ _ hne]
  split_ifs <;> simp_all [postLoop_nil_some]

/-- C3 amended witness at the concrete pair. -/
theorem c3_amended_witness :
    postprocessPass [pairA, pairB] = [{ pairA with annot := .UNKNOWN }, pairB] := by
  have h := c3_amended_pair_resolution pairA pairB rfl rfl (by decide)
  rw [h]
  decide

/-! ### Preprocessor idempotence on markup-free text (C9 amended) -/

theorem startsWithL_mem {pat s : List Char} (h : startsWithL pat s = true) :
    ∀ x ∈ pat, x ∈ s := by
  induction pat generalizing s with
  | nil => intro x hx; cases hx
  | cons p ps ih =>
    cases s with
    | nil => simp [startsWithL] at h
    | cons c cs =>
      simp only [startsWithL, Bool.and_eq_true, decide_eq_true_eq] at h
      intro x hx
      rcases List.mem_cons.mp hx with hx | hx
      · exact List.mem_cons.mpr (Or.inl (hx.trans h.1))
      · exact List.mem_cons.mpr (Or.inr (ih h.2 x hx))

theorem replaceAllF_cons (pat rep : List Char) (f : Nat) (c : Char) (cs : List Char) :
    replaceAllF pat rep (f + 1) (c :: cs) =
      if pat ≠ [] ∧ startsWithL pat (c :: cs) then
        rep ++ replaceAllF pat rep f ((c :: cs).drop pat.length)
      else c :: replaceAllF pat rep f cs := rfl

theorem replaceAllF_id {x : Char} {pat : List Char} (rep : List Char) (hx : x ∈ pat) :
    ∀ (f : Nat) (l : List Char), x ∉ l → replaceAllF pat rep f l = l := by
  intro f
  induction f with
  | zero => intro l _; cases l <;> rfl
  | succ f ih =>
    intro l hl
    cases l with
    | nil => rfl
    | cons c cs =>
      rw [replaceAllF_cons]
      rw [if_neg]
      · rw [ih cs fun hc => hl (List.mem_cons.mpr (Or.inr hc))]
      · rintro ⟨-, hs⟩
        exact hl (startsWithL_mem hs x hx)

theorem replaceAllL_id {x : Char} {pat : List Char} (rep : List Char) (hx : x ∈ pat)
    {l : List Char} (hl : x ∉ l) : replaceAllL pat rep l = l :=
  replaceAllF_id rep hx l.length l hl

theorem findSpNl_cons (c : Char) (t : List Char) :
    findSpNl (c :: t) =
      if c = '\n' then some t else if c = ' ' then findSpNl t else none := by
  by_cases hc : c = '\n'
  · subst hc
    rw [if_pos rfl]
    rfl
  · rw [if_neg hc]
    by_cases hs : c = ' '
    · subst hs
      rw [if_pos rfl]
      rfl
    · rw [if_neg hs]
      unfold findSpNl
      split
      · rfl
      · rename_i h
        injection h with h1 h2
        exact absurd h1 hc
      · rename_i h
        injection h with h1 h2
        exact absurd h1 hs
      · rfl

theorem findSpNl_len {cs rest : List Char} (h : findSpNl cs = some rest) :
    rest.length < cs.length := by
  induction cs generalizing rest with
  | nil => simp [findSpNl] at h
  | cons c t ih =>
    rw [findSpNl_cons] at h
    by_cases hc : c = '\n'
    · rw [if_pos hc] at h
      cases h
      simp
    · rw [if_neg hc] at h
      by_cases hs : c = ' '
      · rw [if_pos hs] at h
        exact Nat.lt_trans (ih h) (by simp)
      · rw [if_neg hs] at h
        cases h

theorem findSpNl_mem {cs rest : List Char} (h : findSpNl cs = some rest) :
    ∀ x ∈ rest, x ∈ cs := by
  induction cs generalizing rest with
  | nil => simp [findSpNl] at h
  | cons c t ih =>
    rw [findSpNl_cons] at h
    by_cases hc : c = '\n'
    · rw [if_pos hc] at h
      cases h
      intro x hx
      exact List.mem_cons.mpr (Or.inr hx)
    · rw [if_neg hc] at h
      by_cases hs : c = ' '
      · rw [if_pos hs] at h
        intro x hx
        exact List.mem_cons.mpr (Or.inr (ih h x hx))
      · rw [if_neg hs] at h
        cases h

theorem collapseF_cons (f : Nat) (c : Char) (cs : List Char) :
    collapseF (f + 1) (c :: cs) =
      if c = '\n' then
        match findSpNl cs with
        | some rest => '\n' :: '\n' :: collapseF f rest
        | none => '\n' :: collapseF f cs
      else c :: collapseF f cs := rfl

/-- Fuel irrelevance for the newline collapse: any fuel at least the length
of the input computes the same result. -/
theorem collapseF_fuel : ∀ (n : Nat) (l : List Char), l.length ≤ n →
    ∀ (f g : Nat), l.length ≤ f → l.length ≤ g → collapseF f l = collapseF g l := by
  intro n
  induction n with
  | zero =>
    intro l hl f g _ _
    have : l = [] := List.length_eq_zero.mp (Nat.le_zero.mp hl)
    subst this
    cases f <;> cases g <;> rfl
  | succ n ih =>
    intro l hl f g hf hg
    cases l with
    | nil => cases f <;> cases g <;> rfl
    | cons c cs =>
      simp only [List.length_cons] at hl hf hg
      obtain ⟨f2, rfl⟩ : ∃ f2, f = f2 + 1 :=
        ⟨f - 1, by omega⟩
      obtain ⟨g2, rfl⟩ : ∃ g2, g = g2 + 1 :=
        ⟨g - 1, by omega⟩
      by_cases hc : c = '\n'
      · subst hc
        rw [collapseF_cons, collapseF_cons, if_pos rfl, if_pos rfl]
        cases hfind : findSpNl cs with
        | some rest =>
          have hrl : rest.length < cs.length := findSpNl_len hfind
          show '\n' :: '\n' :: collapseF f2 rest = '\n' :: '\n' :: collapseF g2 rest
          rw [ih rest (by omega) f2 g2 (by omega) (by omega)]
        | none =>
          show '\n' :: collapseF f2 cs = '\n' :: collapseF g2 cs
          rw [ih cs (by omega) f2 g2 (by omega) (by omega)]
      · rw [collapseF_cons, collapseF_cons, if_neg hc, if_neg hc,
          ih cs (by omega) f2 g2 (by omega) (by omega)]

theorem collapseNl_cons_other {c : Char} (t : List Char) (hc : c ≠ '\n') :
    collapseNl (c :: t) = c :: collapseNl t := by
  show collapseF (t.length + 1) (c :: t) = _
  rw [collapseF_cons, if_neg hc]
  rfl

theorem collapseNl_cons_none {t : List Char} (h : findSpNl t = none) :
    collapseNl ('\n' :: t) = '\n' :: collapseNl t := by
  show collapseF (t.length + 1) ('\n' :: t) = _
  rw [collapseF_cons, if_pos rfl, h]
  rfl

theorem collapseNl_cons_some {t rest : List Char} (h : findSpNl t = some rest) :
    collapseNl ('\n' :: t) = '\n' :: '\n' :: collapseNl rest := by
  show collapseF (t.length + 1) ('\n' :: t) = _
  rw [collapseF_cons, if_pos rfl, h]
  have hrl : rest.length < t.length := findSpNl_len h
  show '\n' :: '\n' :: collapseF t.length rest = _
  rw [collapseF_fuel t.length rest (by omega) t.length rest.length (by omega) (by omega)]
  rfl

/-- The collapse pass never leaves a freshly matchable head behind. -/
theorem findSpNl_collapse {cs : List Char} (h : findSpNl cs = none) :
    findSpNl (collapseNl cs) = none := by
  induction cs with
  | nil => rfl
  | cons c t ih =>
    rw [findSpNl_cons] at h
    by_cases hc : c = '\n'
    · rw [if_pos hc] at h
      cases h
    · rw [if_neg hc] at h
      by_cases hs : c = ' '
      · rw [if_pos hs] at h
        subst hs
        rw [collapseNl_cons_other t (by decide), findSpNl_cons, if_neg (by decide),
          if_pos rfl]
        exact ih h
      · rw [collapseNl_cons_other t hc, findSpNl_cons, if_neg hc, if_neg hs]

/-- Idempotence of the newline collapse. -/
theorem collapseNl_idem : ∀ (n : Nat) (l : List Char), l.length ≤ n →
    collapseNl (collapseNl l) = collapseNl l := by
  intro n
  induction n with
  | zero =>
    intro l hl
    have : l = [] := List.length_eq_zero.mp (Nat.le_zero.mp hl)
    subst this
    rfl
  | succ n ih =>
    intro l hl
    cases l with
    | nil => rfl
    | cons c cs =>
      simp only [List.length_cons] at hl
      by_cases hc : c = '\n'
      · subst hc
        cases hfind : findSpNl cs with
        | some rest =>
          rw [collapseNl_cons_some hfind]
          have h2 : findSpNl ('\n' :: collapseNl rest) = some (collapseNl rest) := by
            rw [findSpNl_cons, if_pos rfl]
          rw [collapseNl_cons_some h2]
          have hrl : rest.length < cs.length := findSpNl_len hfind
          rw [ih rest (by omega)]
        | none =>
          rw [collapseNl_cons_none hfind,
            collapseNl_cons_none (findSpNl_collapse hfind), ih cs (by omega)]
      · rw [collapseNl_cons_other cs hc, collapseNl_cons_other (collapseNl cs) hc,
          ih cs (by omega)]

/-- Every character of the collapsed list already occurs in the input. -/
theorem collapseNl_mem : ∀ (n : Nat) (l : List Char), l.length ≤ n →
    ∀ x ∈ collapseNl l, x ∈ l := by
  intro n
  induction n with
  | zero =>
    intro l hl
    have : l = [] := List.length_eq_zero.mp (Nat.le_zero.mp hl)
    subst this
    intro x hx
    exact hx
  | succ n ih =>
    intro l hl
    cases l with
    | nil => intro x hx; exact hx
    | cons c cs =>
      simp only [List.length_cons] at hl
      by_cases hc : c = '\n'
      · subst hc
        cases hfind : findSpNl cs with
        | some rest =>
          rw [collapseNl_cons_some hfind]
          have hrl : rest.length < cs.length := findSpNl_len hfind
          intro x hx
          rcases List.mem_cons.mp hx with rfl | hx
          · exact List.mem_cons_self _ _
          rcases List.mem_cons.mp hx with rfl | hx
          · exact List.mem_cons_self _ _
          · exact List.mem_cons.mpr
              (Or.inr (findSpNl_mem hfind x (ih rest (by omega) x hx)))
        | none =>
          rw [collapseNl_cons_none hfind]
          intro x hx
          rcases List.mem_cons.mp hx with rfl | hx
          · exact List.mem_cons_self _ _
          · exact List.mem_cons.mpr (Or.inr (ih cs (by omega) x hx))
      · rw [collapseNl_cons_other cs hc]
        intro x hx
        rcases List.mem_cons.mp hx with rfl | hx
        · exact List.mem_cons_self _ _
        · exact List.mem_cons.mpr (Or.inr (ih cs (by omega) x hx))

theorem moveBoldSpF_id : ∀ (f : Nat) (l : List Char), '<' ∉ l → moveBoldSpF f l = l := by
  intro f
  induction f with
  | zero => intro l _; cases l <;> rfl
  | succ f ih =>
    intro l hl
    cases l with
    | nil => rfl
    | cons c cs =>
      show (if c = '<' ∧ startsWithL (lit "b>") cs ∧ headIs ' ' (cs.drop 2) then _ else _) = _
      rw [if_neg, ih cs fun hc => hl (List.mem_cons.mpr (Or.inr hc))]
      rintro ⟨rfl, -, -⟩
      exact hl (List.mem_cons_self _ _)

theorem moveBoldTabF_id : ∀ (f : Nat) (l : List Char), '<' ∉ l → moveBoldTabF f l = l := by
  intro f
  induction f with
  | zero => intro l _; cases l <;> rfl
  | succ f ih =>
    intro l hl
    cases l with
    | nil => rfl
    | cons c cs =>
      show (if c = '<' ∧ startsWithL (lit "b>") cs ∧ headIs '\t' (cs.drop 2) then _ else _) = _
      rw [if_neg, ih cs fun hc => hl (List.mem_cons.mpr (Or.inr hc))]
      rintro ⟨rfl, -, -⟩
      exact hl (List.mem_cons_self _ _)

/-- On text with no carriage returns, tabs or markup, the whole preprocessor
is exactly the newline collapse. -/
theorem preprocess_clean (x : String)
    (h : ∀ c ∈ x.data, c ≠ '\r' ∧ c ≠ '\t' ∧ c ≠ '<') :
    preprocess x = String.mk (collapseNl x.data) := by
  have hr : '\r' ∉ x.data := fun hc => (h _ hc).1 rfl
  have ht : '\t' ∉ x.data := fun hc => (h _ hc).2.1 rfl
  have hlt : '<' ∉ x.data := fun hc => (h _ hc).2.2 rfl
  have hcl : ∀ y ∈ collapseNl x.data, y ∈ x.data :=
    collapseNl_mem x.data.length x.data (Nat.le_refl _)
  have hlt2 : '<' ∉ collapseNl x.data := fun hc => hlt (hcl _ hc)
  have hfil : x.data.filter (fun c => c ≠ '\r') = x.data := by
    refine List.filter_eq_self.mpr fun a ha => ?_
    simp only [ne_eq, decide_eq_true_eq]
    intro he
    exact hr (he ▸ ha)
  simp only [preprocess]
  rw [hfil,
    replaceAllL_id _ (show '<' ∈ lit "<br>" by decide) hlt,
    replaceAllL_id _ (show '<' ∈ lit "<br/>" by decide) hlt,
    replaceAllL_id _ (show '\t' ∈ lit "\t" by decide) ht,
    replaceAllL_id _ (show '<' ∈ lit "\n</b>" by decide) hlt2]
  show String.mk (replaceAllL (lit "<b></b>") []
    (moveBoldTab (moveBoldSp (collapseNl x.data)))) = _
  unfold moveBoldSp
  rw [moveBoldSpF_id _ _ hlt2]
  unfold moveBoldTab
  rw [moveBoldTabF_id _ _ hlt2,
    replaceAllL_id _ (show '<' ∈ lit "<b></b>" by decide) hlt2]

/-- C9 amended: the preprocessor is not idempotent on its normalized output
in general (see the counterexample), but it is idempotent on markup-free
text: on any input without carriage returns, tabs and angle-bracket markup,
applying it twice equals applying it once. -/
theorem c9_amended_idempotent (x : String)
    (h : ∀ c ∈ x.data, c ≠ '\r' ∧ c ≠ '\t' ∧ c ≠ '<') :
    preprocess (preprocess x) = preprocess x := by
  rw [preprocess_clean x h]
  have h2 : ∀ c ∈ (String.mk (collapseNl x.data)).data, c ≠ '\r' ∧ c ≠ '\t' ∧ c ≠ '<' :=
    fun c hc => h c (collapseNl_mem x.data.length x.data (Nat.le_refl _) c hc)
  rw [preprocess_clean _ h2]
  show String.mk (collapseNl (collapseNl x.data)) = _
  rw [collapseNl_idem x.data.length x.data (Nat.le_refl _)]

/-- C9 amended witness at a concrete markup-free input containing a
collapsible whitespace-only line. -/
theorem c9_amended_witness : preprocess (preprocess "a\n \nb") = preprocess "a\n \nb" :=
  c9_amended_idempotent "a\n \nb" (by decide)

/-! ### Structural facts about the annotation passes -/

theorem entry_eq {e1 e2 : Entry} (h1 : e1.content = e2.content) (h2 : e1.annot = e2.annot)
    (h3 : e1.locked = e2.locked) : e1 = e2 := by
  cases e1
  cases e2
  simp_all

/-- Overwriting a position with the value it already holds is the
identity. -/
theorem set_same {α : Type} : ∀ (l : List α) (i : Nat) (x : α), l.get? i = some x →
    l.set i x = l := by
  intro l
  induction l with
  | nil => intro i x h; cases h
  | cons a as ih =>
    intro i x h
    cases i with
    | zero =>
      cases h
      rfl
    | succ i =>
      simp only [List.get?] at h
      simp only [List.set]
      rw [ih i x h]

/-- Composition of the change-tracking relation between pass inputs and
outputs: contents agree and locked entries pass through unchanged. -/
theorem tame_trans {A B C : List Entry}
    (h1 : ∀ e2 ∈ B, ∃ e ∈ A, e2.content = e.content ∧ (e.locked = true → e2 = e))
    (h2 : ∀ e2 ∈ C, ∃ e ∈ B, e2.content = e.content ∧ (e.locked = true → e2 = e)) :
    ∀ e2 ∈ C, ∃ e ∈ A, e2.content = e.content ∧ (e.locked = true → e2 = e) := by
  intro e2 he2
  rcases h2 e2 he2 with ⟨e1, he1, hc1, hl1⟩
  rcases h1 e1 he1 with ⟨e0, he0, hc0, hl0⟩
  refine ⟨e0, he0, hc1.trans hc0, fun hlk => ?_⟩
  have h10 := hl0 hlk
  rw [h10] at hl1
  exact hl1 hlk

/-- A pass that maps a step over the entries preserves the content list
when the step preserves content. -/
theorem mapPass_content (f : Entry → Entry) (hf : ∀ e, (f e).content = e.content)
    (l : List Entry) : (l.map f).map Entry.content = l.map Entry.content := by
  induction l with
  | nil => rfl
  | cons e es ih =>
    simp only [List.map_cons, ih, hf e]

theorem mapPass_lockedInv (f : Entry → Entry)
    (hfix : ∀ e, e.locked = true → e.annot = Annot.SCENE ∨ e.annot = Annot.SPEECH_CUE → f e = e)
    (hshape : ∀ e, (f e).locked = true →
      e.locked = true ∨ ((f e).annot = Annot.SCENE ∨ (f e).annot = Annot.SPEECH_CUE))
    (l : List Entry) (hl : lockedInv l) : lockedInv (l.map f) := by
  intro e2 he2 hlock
  rcases List.mem_map.mp he2 with ⟨e, he, rfl⟩
  rcases hshape e hlock with hel | hfr
  · rw [hfix e hel (hl e he hel)] at hlock ⊢
    exact hl e he hel
  · exact hfr

theorem mapPass_pointwise (f : Entry → Entry)
    (hfix : ∀ e, e.locked = true → e.annot = Annot.SCENE ∨ e.annot = Annot.SPEECH_CUE → f e = e)
    (l : List Entry) (hl : lockedInv l) (j : Nat) (e : Entry)
    (hj : l.get? j = some e) (hlock : e.locked = true) : (l.map f).get? j = some e := by
  rw [List.get?_map, hj]
  show some (f e) = some e
  rw [hfix e hlock (hl e (List.get?_mem hj) hlock)]

theorem mapPass_tame (f : Entry → Entry) (hcont : ∀ e, (f e).content = e.content)
    (hfix : ∀ e, e.locked = true → e.annot = Annot.SCENE ∨ e.annot = Annot.SPEECH_CUE → f e = e)
    (l : List Entry) (hl : lockedInv l) :
    ∀ e2 ∈ l.map f, ∃ e ∈ l, e2.content = e.content ∧ (e.locked = true → e2 = e) := by
  intro e2 he2
  rcases List.mem_map.mp he2 with ⟨e, he, rfl⟩
  exact ⟨e, he, hcont e, fun hlock => hfix e hlock (hl e he hlock)⟩

theorem sceneStep_content (e : Entry) : (sceneStep e).content = e.content := by
  unfold sceneStep
  split <;> rfl

theorem sceneStep_fix (e : Entry) (h : e.locked = true)
    (ha : e.annot = Annot.SCENE ∨ e.annot = Annot.SPEECH_CUE) : sceneStep e = e := by
  unfold sceneStep
  rw [if_neg]
  rintro ⟨h1 | h1, -⟩
  · rcases ha with h2 | h2 <;> rw [h1] at h2 <;> cases h2
  · rw [h] at h1
    cases h1

theorem sceneStep_shape (e : Entry) : (sceneStep e).locked = true →
    e.locked = true ∨ ((sceneStep e).annot = Annot.SCENE ∨ (sceneStep e).annot = Annot.SPEECH_CUE) := by
  unfold sceneStep
  split
  · intro _
    right
    left
    rfl
  · intro h
    left
    exact h

theorem cueStep_content (e : Entry) : (cueStep e).content = e.content := by
  unfold cueStep
  split <;> rfl

theorem cueStep_fix (e : Entry) (h : e.locked = true)
    (ha : e.annot = Annot.SCENE ∨ e.annot = Annot.SPEECH_CUE) : cueStep e = e := by
  unfold cueStep
  rw [if_neg]
  rintro ⟨h1, -⟩
  rcases ha with h2 | h2 <;> rw [h1] at h2 <;> cases h2

theorem cueStep_shape (e : Entry) : (cueStep e).locked = true →
    e.locked = true ∨ ((cueStep e).annot = Annot.SCENE ∨ (cueStep e).annot = Annot.SPEECH_CUE) := by
  unfold cueStep
  split
  · intro _
    right
    right
    rfl
  · intro h
    left
    exact h

theorem metaStep_content (e : Entry) : (metaStep e).content = e.content := by
  unfold metaStep
  split <;> rfl

theorem metaStep_fix (e : Entry) (h : e.locked = true)
    (ha : e.annot = Annot.SCENE ∨ e.annot = Annot.SPEECH_CUE) : metaStep e = e := by
  unfold metaStep
  rw [if_neg]
  rintro ⟨h1, -, -⟩
  rw [h] at h1
  cases h1

theorem metaStep_shape (e : Entry) : (metaStep e).locked = true →
    e.locked = true ∨ ((metaStep e).annot = Annot.SCENE ∨ (metaStep e).annot = Annot.SPEECH_CUE) := by
  unfold metaStep
  split
  · intro h
    left
    exact h
  · intro h
    left
    exact h

/-! ### A uniform description of the later annotation-rewriting passes

Each pass after the two locking lexicon passes rewrites entries in place:
it keeps content and locked flag, and only changes the classification of an
entry that is unlocked or currently Unknown or CHARACTER.  All the facts
the claims need follow from that pointwise shape. -/

theorem shape_facts {A B : List Entry} (hlen : B.length = A.length)
    (hpt : ∀ j e2, B.get? j = some e2 →
      ∃ e, A.get? j = some e ∧ e2.content = e.content ∧ e2.locked = e.locked ∧
        (e2.annot = e.annot ∨
          (e.locked = false ∨ e.annot = Annot.UNKNOWN ∨ e.annot = Annot.CHARACTER))) :
    (B.map Entry.content = A.map Entry.content) ∧
    (lockedInv A → lockedInv B) ∧
    (lockedInv A → ∀ j e, A.get? j = some e → e.locked = true → B.get? j = some e) ∧
    (lockedInv A → ∀ e2 ∈ B, ∃ e ∈ A, e2.content = e.content ∧ (e.locked = true → e2 = e)) := by
  have hfix : ∀ (hinv : lockedInv A) (j : Nat) (e2 e : Entry), B.get? j = some e2 →
      A.get? j = some e → e.locked = true → e2 = e := by
    intro hinv j e2 e hB hA hlock
    rcases hpt j e2 hB with ⟨e', hA', hc, hl, hdis⟩
    rw [hA] at hA'
    cases hA'
    rcases hinv e (List.get?_mem hA) hlock with hs | hs
    all_goals
      rcases hdis with hd | hd | hd | hd
      · exact entry_eq hc hd hl
      · rw [hlock] at hd; cases hd
      · rw [hs] at hd; cases hd
      · rw [hs] at hd; cases hd
  refine ⟨?_, ?_, ?_, ?_⟩
  · apply List.ext_get?
    intro j
    rcases hB : B.get? j with _ | e2
    · have : A.length ≤ j := by
        have := List.get?_eq_none.mp hB
        omega
      rw [List.get?_map, List.get?_map, hB, List.get?_eq_none.mpr this]
    · rcases hpt j e2 hB with ⟨e, hA, hc, -, -⟩
      rw [List.get?_map, List.get?_map, hB, hA]
      simp [hc]
  · intro hinv e2 he2 hlock
    rcases List.mem_iff_get?.mp he2 with ⟨j, hB⟩
    rcases hpt j e2 hB with ⟨e, hA, hc, hl, hdis⟩
    have heq := hfix hinv j e2 e hB hA (by rw [← hl, hlock])
    rw [heq]
    exact hinv e (List.get?_mem hA) (by rw [← hl, hlock])
  · intro hinv j e hA hlock
    rcases hB : B.get? j with _ | e2
    · have hj := List.get?_eq_none.mp hB
      have := List.get?_eq_none.mpr (hlen ▸ hj)
      rw [this] at hA
      cases hA
    · rw [hfix hinv j e2 e hB hA hlock]
  · intro hinv e2 he2
    rcases List.mem_iff_get?.mp he2 with ⟨j, hB⟩
    rcases hpt j e2 hB with ⟨e, hA, hc, hl, hdis⟩
    exact ⟨e, List.get?_mem hA, hc, fun hlock => hfix hinv j e2 e hB hA hlock⟩

/-- Transitivity of the pointwise shape. -/
theorem shape_trans {A B C : List Entry}
    (h1 : ∀ j e2, B.get? j = some e2 →
      ∃ e, A.get? j = some e ∧ e2.content = e.content ∧ e2.locked = e.locked ∧
        (e2.annot = e.annot ∨
          (e.locked = false ∨ e.annot = Annot.UNKNOWN ∨ e.annot = Annot.CHARACTER)))
    (h2 : ∀ j e2, C.get? j = some e2 →
      ∃ e, B.get? j = some e ∧ e2.content = e.content ∧ e2.locked = e.locked ∧
        (e2.annot = e.annot ∨
          (e.locked = false ∨ e.annot = Annot.UNKNOWN ∨ e.annot = Annot.CHARACTER))) :
    ∀ j e2, C.get? j = some e2 →
      ∃ e, A.get? j = some e ∧ e2.content = e.content ∧ e2.locked = e.locked ∧
        (e2.annot = e.annot ∨
          (e.locked = false ∨ e.annot = Annot.UNKNOWN ∨ e.annot = Annot.CHARACTER)) := by
  intro j e2 hC
  rcases h2 j e2 hC with ⟨e1, hB, hc2, hl2, hd2⟩
  rcases h1 j e1 hB with ⟨e0, hA, hc1, hl1, hd1⟩
  refine ⟨e0, hA, hc2.trans hc1, hl2.trans hl1, ?_⟩
  rcases hd1 with hd1 | hd1
  · rcases hd2 with hd2 | hd2
    · exact Or.inl (hd2.trans hd1)
    · rcases hd2 with hd2 | hd2 | hd2
      · exact Or.inr (Or.inl (hl1 ▸ hd2))
      · exact Or.inr (Or.inr (Or.inl (hd1 ▸ hd2)))
      · exact Or.inr (Or.inr (Or.inr (hd1 ▸ hd2)))
  · exact Or.inr hd1

/-- The identity shape. -/
theorem shape_refl (A : List Entry) :
    ∀ j e2, A.get? j = some e2 →
      ∃ e, A.get? j = some e ∧ e2.content = e.content ∧ e2.locked = e.locked ∧
        (e2.annot = e.annot ∨
          (e.locked = false ∨ e.annot = Annot.UNKNOWN ∨ e.annot = Annot.CHARACTER)) :=
  fun j e2 h => ⟨e2, h, rfl, rfl, Or.inl rfl⟩

theorem stepShape_facts {A B : List Entry} (h : stepShape A B) :
    (B.map Entry.content = A.map Entry.content) ∧
    (lockedInv A → lockedInv B) ∧
    (lockedInv A → ∀ j e, A.get? j = some e → e.locked = true → B.get? j = some e) ∧
    (lockedInv A → ∀ e2 ∈ B, ∃ e ∈ A, e2.content = e.content ∧ (e.locked = true → e2 = e)) :=
  shape_facts h.1 h.2

theorem stepShape_refl2 (A : List Entry) : stepShape A A := ⟨rfl, shape_refl A⟩

theorem stepShape_trans2 {A B C : List Entry} (h1 : stepShape A B) (h2 : stepShape B C) :
    stepShape A C := ⟨h2.1.trans h1.1, shape_trans h1.2 h2.2⟩

theorem stepShape_cons {e e2 : Entry} {A B : List Entry}
    (hc : e2.content = e.content) (hl : e2.locked = e.locked)
    (hd : e2.annot = e.annot ∨
      (e.locked = false ∨ e.annot = Annot.UNKNOWN ∨ e.annot = Annot.CHARACTER))
    (h : stepShape A B) : stepShape (e :: A) (e2 :: B) := by
  refine ⟨by simp [h.1], ?_⟩
  intro j e3 hj
  cases j with
  | zero =>
    cases hj
    exact ⟨e, rfl, hc, hl, hd⟩
  | succ j => exact h.2 j e3 hj

/-- Unfolding equation for sweep one on a cons cell with a previous entry. -/
theorem speechSweep1_cons_some (e : Entry) (rest : List Entry) (i : Nat) (p : Entry)
    (hA hB : List (Nat × List Nat)) :
    speechSweep1 (e :: rest) i (some p) hA hB =
      if p.annot = Annot.CHARACTER then
        ((if e.annot = Annot.UNKNOWN then { e with annot := Annot.SPEECH } else e) ::
          (speechSweep1 rest (i + 1)
            (some (if e.annot = Annot.UNKNOWN then { e with annot := Annot.SPEECH } else e))
            (occAdd hA (computeIndentation e.content) i) hB).1,
         (speechSweep1 rest (i + 1)
            (some (if e.annot = Annot.UNKNOWN then { e with annot := Annot.SPEECH } else e))
            (occAdd hA (computeIndentation e.content) i) hB).2)
      else if p.annot = Annot.SPEECH_CUE then
        (e ::
          (speechSweep1 rest (i + 1) (some e) hA
            (occAdd hB (computeIndentation e.content) i)).1,
         (speechSweep1 rest (i + 1) (some e) hA
            (occAdd hB (computeIndentation e.content) i)).2)
      else
        (e :: (speechSweep1 rest (i + 1) (some e) hA hB).1,
         (speechSweep1 rest (i + 1) (some e) hA hB).2) := rfl

/-- Unfolding equation for the sweep-one entry walk on a cons cell with a
previous entry. -/
theorem speechEntriesGo_cons_some (e : Entry) (rest : List Entry) (p : Entry) :
    speechEntriesGo (some p) (e :: rest) =
      (if p.annot = Annot.CHARACTER ∧ e.annot = Annot.UNKNOWN then
        { e with annot := Annot.SPEECH } else e) ::
      speechEntriesGo (some (if p.annot = Annot.CHARACTER ∧ e.annot = Annot.UNKNOWN then
        { e with annot := Annot.SPEECH } else e)) rest := rfl

/-- The entries component of sweep one ignores the histograms. -/
theorem speechSweep1_fst : ∀ (l : List Entry) (i : Nat) (prev : Option Entry)
    (hA hB : List (Nat × List Nat)),
    (speechSweep1 l i prev hA hB).1 = speechEntriesGo prev l := by
  intro l
  induction l with
  | nil =>
    intro i prev hA hB
    cases prev <;> rfl
  | cons e rest ih =>
    intro i prev hA hB
    cases prev with
    | none =>
      show e :: (speechSweep1 rest (i + 1) (some e) hA hB).1 = e :: speechEntriesGo (some e) rest
      rw [ih]
    | some p =>
      rw [speechSweep1_cons_some, speechEntriesGo_cons_some]
      by_cases hp : p.annot = Annot.CHARACTER
      · rw [if_pos hp]
        by_cases hu : e.annot = Annot.UNKNOWN
        · rw [if_pos hu,
            if_pos (show p.annot = Annot.CHARACTER ∧ e.annot = Annot.UNKNOWN from ⟨hp, hu⟩),
            ih]
        · rw [if_neg hu,
            if_neg (show ¬(p.annot = Annot.CHARACTER ∧ e.annot = Annot.UNKNOWN) from
              fun hc => hu hc.2),
            ih]
      · rw [if_neg (show ¬(p.annot = Annot.CHARACTER ∧ e.annot = Annot.UNKNOWN) from
          fun hc => hp hc.1)]
        by_cases hq : p.annot = Annot.SPEECH_CUE
        · rw [if_neg hp, if_pos hq, ih]
        · rw [if_neg hp, if_neg hq, ih]

theorem speechEntriesGo_shape : ∀ (l : List Entry) (prev : Option Entry),
    stepShape l (speechEntriesGo prev l) := by
  intro l
  induction l with
  | nil =>
    intro prev
    cases prev <;> exact stepShape_refl2 []
  | cons e rest ih =>
    intro prev
    cases prev with
    | none => exact stepShape_cons rfl rfl (Or.inl rfl) (ih _)
    | some p =>
      rw [show speechEntriesGo (some p) (e :: rest) =
        (if p.annot = Annot.CHARACTER ∧ e.annot = Annot.UNKNOWN then
          { e with annot := Annot.SPEECH } else e) ::
        speechEntriesGo (some (if p.annot = Annot.CHARACTER ∧ e.annot = Annot.UNKNOWN then
          { e with annot := Annot.SPEECH } else e)) rest from rfl]
      by_cases hcond : p.annot = Annot.CHARACTER ∧ e.annot = Annot.UNKNOWN
      · rw [if_pos hcond]
        exact stepShape_cons rfl rfl (Or.inr (Or.inr (Or.inl hcond.2))) (ih _)
      · rw [if_neg hcond]
        exact stepShape_cons rfl rfl (Or.inl rfl) (ih _)

theorem setSpeechIfUnknown_eq (l : List Entry) (i : Nat) :
    setSpeechIfUnknown l i =
      match l.get? i with
      | some e =>
        if e.annot = Annot.UNKNOWN then l.set i { e with annot := Annot.SPEECH } else l
      | none => l := rfl

theorem setSpeechIfUnknown_shape (l : List Entry) (i : Nat) :
    stepShape l (setSpeechIfUnknown l i) := by
  rw [setSpeechIfUnknown_eq]
  cases h : l.get? i with
  | none => exact stepShape_refl2 l
  | some e =>
    rcases List.get?_eq_some.mp h with ⟨hlt, -⟩
    show stepShape l (if e.annot = Annot.UNKNOWN then
      l.set i { e with annot := Annot.SPEECH } else l)
    by_cases hu : e.annot = Annot.UNKNOWN
    · rw [if_pos hu]
      refine ⟨by simp, ?_⟩
      intro j e2 hj
      by_cases hij : j = i
      · subst hij
        rw [List.get?_set_eq_of_lt _ hlt] at hj
        cases hj
        exact ⟨e, h, rfl, rfl, Or.inr (Or.inr (Or.inl hu))⟩
      · rw [List.get?_set_ne _ _ fun hh => hij hh.symm] at hj
        exact ⟨e2, hj, rfl, rfl, Or.inl rfl⟩
    · rw [if_neg hu]
      exact stepShape_refl2 l

theorem foldSpeechIdx_shape : ∀ (idxs : List Nat) (l : List Entry),
    stepShape l (idxs.foldl setSpeechIfUnknown l) := by
  intro idxs
  induction idxs with
  | nil => exact fun l => stepShape_refl2 l
  | cons i is ih =>
    intro l
    exact stepShape_trans2 (setSpeechIfUnknown_shape l i) (ih _)

theorem foldSpeechHist_shape : ∀ (hist : List (Nat × List Nat)) (l : List Entry),
    stepShape l (hist.foldl (fun acc kv => kv.2.foldl setSpeechIfUnknown acc) l) := by
  intro hist
  induction hist with
  | nil => exact fun l => stepShape_refl2 l
  | cons kv ks ih =>
    intro l
    exact stepShape_trans2 (foldSpeechIdx_shape kv.2 l) (ih _)

theorem speechPass_shape (l : List Entry) : stepShape l (speechPass l) := by
  unfold speechPass
  refine stepShape_trans2 ?_ (foldSpeechHist_shape _ _)
  rw [speechSweep1_fst]
  exact speechEntriesGo_shape l none

/-- A mapped pass whose step keeps content and locked flag and recolors only
unlocked, Unknown or CHARACTER entries satisfies the pointwise shape. -/
theorem mapPass_shape (f : Entry → Entry)
    (hc : ∀ e, (f e).content = e.content) (hl : ∀ e, (f e).locked = e.locked)
    (hd : ∀ e, (f e).annot = e.annot ∨
      (e.locked = false ∨ e.annot = Annot.UNKNOWN ∨ e.annot = Annot.CHARACTER))
    (l : List Entry) : stepShape l (l.map f) := by
  refine ⟨by simp, ?_⟩
  intro j e2 hj
  rw [List.get?_map] at hj
  cases he : l.get? j with
  | none =>
    rw [he] at hj
    cases hj
  | some e =>
    rw [he] at hj
    cases hj
    exact ⟨e, rfl, hc e, hl e, hd e⟩

theorem metaStep_locked (e : Entry) : (metaStep e).locked = e.locked := by
  unfold metaStep
  split <;> rfl

theorem metaStep_disj (e : Entry) : (metaStep e).annot = e.annot ∨
    (e.locked = false ∨ e.annot = Annot.UNKNOWN ∨ e.annot = Annot.CHARACTER) := by
  unfold metaStep
  split
  · rename_i h
    exact Or.inr (Or.inl h.1)
  · exact Or.inl rfl

theorem metaLexiconPass_shape (l : List Entry) : stepShape l (metaLexiconPass l) :=
  mapPass_shape metaStep metaStep_content metaStep_locked metaStep_disj l

theorem narrativePass_shape (l : List Entry) : stepShape l (narrativePass l) := by
  unfold narrativePass
  apply mapPass_shape
  · intro e
    split <;> rfl
  · intro e
    split <;> rfl
  · intro e
    split
    · rename_i h
      exact Or.inr (Or.inr (Or.inl h.1))
    · exact Or.inl rfl

theorem lastSpeechLoop_shape : ∀ (l : List Entry) (prev : Option Entry),
    stepShape l (lastSpeechLoop prev l) := by
  intro l
  induction l with
  | nil =>
    intro prev
    exact stepShape_refl2 []
  | cons e rest ih =>
    intro prev
    cases prev with
    | none => exact stepShape_cons rfl rfl (Or.inl rfl) (ih _)
    | some p =>
      rw [show lastSpeechLoop (some p) (e :: rest) =
        (if p.annot = Annot.CHARACTER ∧ e.locked = false ∧ e.annot ≠ Annot.SPEECH ∧
            e.annot ≠ Annot.CHARACTER ∧ e.annot ≠ Annot.SPEECH_CUE then
          { e with annot := Annot.SPEECH } else e) ::
        lastSpeechLoop (some (if p.annot = Annot.CHARACTER ∧ e.locked = false ∧
            e.annot ≠ Annot.SPEECH ∧ e.annot ≠ Annot.CHARACTER ∧ e.annot ≠ Annot.SPEECH_CUE then
          { e with annot := Annot.SPEECH } else e)) rest from rfl]
      by_cases hcond : p.annot = Annot.CHARACTER ∧ e.locked = false ∧ e.annot ≠ Annot.SPEECH ∧
          e.annot ≠ Annot.CHARACTER ∧ e.annot ≠ Annot.SPEECH_CUE
      · rw [if_pos hcond]
        exact stepShape_cons rfl rfl (Or.inr (Or.inl hcond.2.1)) (ih _)
      · rw [if_neg hcond]
        exact stepShape_cons rfl rfl (Or.inl rfl) (ih _)

theorem lastSpeechPass_shape (l : List Entry) : stepShape l (lastSpeechPass l) :=
  lastSpeechLoop_shape l none

theorem postLoop_shape : ∀ (l : List Entry) (r : Option Nat) (p : Entry),
    stepShape (p :: l) (postLoop r (some p) l) := by
  intro l
  induction l with
  | nil =>
    intro r p
    exact stepShape_refl2 [p]
  | cons e rest ih =>
    intro r p
    rw [postLoop_cons_some]
    by_cases hpe : p.annot = Annot.CHARACTER ∧ e.annot = Annot.CHARACTER
    · rw [if_pos hpe]
      by_cases hd : postDiscardCurrent r p e = true
      · rw [if_pos hd]
        refine stepShape_cons rfl rfl (Or.inl rfl) ?_
        refine stepShape_trans2 ?_ (ih r { e with annot := Annot.SPEECH })
        exact stepShape_cons rfl rfl (Or.inr (Or.inr (Or.inr hpe.2))) (stepShape_refl2 rest)
      · rw [if_neg hd]
        refine stepShape_trans2 ?_ (stepShape_cons rfl rfl (Or.inl rfl) (ih r e))
        exact stepShape_cons rfl rfl (Or.inr (Or.inr (Or.inr hpe.1))) (stepShape_refl2 (e :: rest))
    · rw [if_neg hpe]
      exact stepShape_cons rfl rfl (Or.inl rfl) (ih r e)

theorem postprocessPass_shape (l : List Entry) : stepShape l (postprocessPass l) := by
  unfold postprocessPass
  cases l with
  | nil => exact stepShape_refl2 []
  | cons e rest =>
    rw [postLoop_cons_none]
    exact postLoop_shape rest _ e

theorem boundaryMeta_shape : ∀ (l r : List Entry), boundaryMeta l = .ok r → stepShape l r := by
  intro l
  induction l with
  | nil =>
    intro r h
    cases h
  | cons e rest ih =>
    intro r h
    unfold boundaryMeta at h
    by_cases hu : e.annot = Annot.UNKNOWN
    · rw [if_pos hu] at h
      cases hres : boundaryMeta rest with
      | ok r2 =>
        rw [hres] at h
        cases h
        exact stepShape_cons rfl rfl (Or.inr (Or.inr (Or.inl hu))) (ih r2 hres)
      | error m =>
        rw [hres] at h
        cases h
    · rw [if_neg hu] at h
      cases h
      exact stepShape_refl2 _

theorem removalPass_facts (l : List Entry) :
    ((removalPass l).map Entry.content).Sublist (l.map Entry.content) ∧
    (lockedInv l → lockedInv (removalPass l)) ∧
    (lockedInv l → ∀ e ∈ l, e.locked = true → e ∈ removalPass l) ∧
    (∀ e2 ∈ removalPass l, ∃ e ∈ l, e2.content = e.content ∧ (e.locked = true → e2 = e)) := by
  refine ⟨List.Sublist.map _ (List.filter_sublist l), ?_, ?_, ?_⟩
  · intro hinv e he hlock
    exact hinv e (List.mem_of_mem_filter he) hlock
  · intro hinv e he hlock
    refine List.mem_filter.mpr ⟨he, ?_⟩
    rcases hinv e he hlock with hs | hs <;> simp [hs]
  · intro e2 he2
    exact ⟨e2, List.mem_of_mem_filter he2, rfl, fun _ => rfl⟩

/-! ### The cluster pass leaves contents untouched and locks nothing -/

theorem allUnlocked_lockedInv {l : List Entry} (h : allUnlocked l) : lockedInv l := by
  intro e he hlock
  rw [h e he] at hlock
  cases hlock

theorem setAnn_content (l : List Entry) (i : Nat) (a : Annot) :
    (setAnn l i a).map Entry.content = l.map Entry.content := by
  unfold setAnn
  cases h : l.get? i with
  | none => rfl
  | some e =>
    show (l.set i { e with annot := a }).map Entry.content = _
    rw [List.map_set]
    refine set_same _ _ _ ?_
    rw [List.get?_map, h]
    rfl

theorem setAnn_unlocked (l : List Entry) (i : Nat) (a : Annot) (h : allUnlocked l) :
    allUnlocked (setAnn l i a) := by
  unfold setAnn
  cases hg : l.get? i with
  | none => exact h
  | some e =>
    intro e2 he2
    rcases List.mem_or_eq_of_mem_set he2 with he2 | rfl
    · exact h e2 he2
    · exact h e (List.get?_mem hg)

theorem setAnnList_spec : ∀ (idxs : List Nat) (l : List Entry) (a : Annot),
    ((setAnnList l idxs a).map Entry.content = l.map Entry.content) ∧
    (allUnlocked l → allUnlocked (setAnnList l idxs a)) := by
  intro idxs
  induction idxs with
  | nil => exact fun l a => ⟨rfl, id⟩
  | cons i is ih =>
    intro l a
    constructor
    · show ((setAnnList (setAnn l i a) is a).map Entry.content) = _
      rw [(ih _ a).1, setAnn_content]
    · intro h
      exact (ih _ a).2 (setAnn_unlocked l i a h)

theorem applyGroupFold_spec : ∀ (idxs : List Nat) (st : List Entry × List (List Char)),
    (((idxs.foldl
        (fun st2 idx =>
          (setAnn st2.1 idx Annot.CHARACTER,
            st2.2 ++ [cleanupCharacterEntry (entryAt st2.1 idx)])) st).1.map Entry.content =
      st.1.map Entry.content) ∧
    (allUnlocked st.1 →
      allUnlocked (idxs.foldl
        (fun st2 idx =>
          (setAnn st2.1 idx Annot.CHARACTER,
            st2.2 ++ [cleanupCharacterEntry (entryAt st2.1 idx)])) st).1)) := by
  intro idxs
  induction idxs with
  | nil => exact fun st => ⟨rfl, id⟩
  | cons i is ih =>
    intro st
    constructor
    · rw [List.foldl_cons, (ih _).1]
      exact setAnn_content st.1 i Annot.CHARACTER
    · intro h
      rw [List.foldl_cons]
      exact (ih _).2 (setAnn_unlocked st.1 i Annot.CHARACTER h)

theorem applyGroup_spec (st : List Entry × List (List Char)) (g : List Nat) :
    ((applyGroup st g).1.map Entry.content = st.1.map Entry.content) ∧
    (allUnlocked st.1 → allUnlocked (applyGroup st g).1) :=
  applyGroupFold_spec _ st

theorem applyGroups_spec : ∀ (gs : List (List Nat)) (st : List Entry × List (List Char)),
    ((gs.foldl applyGroup st).1.map Entry.content = st.1.map Entry.content) ∧
    (allUnlocked st.1 → allUnlocked (gs.foldl applyGroup st).1) := by
  intro gs
  induction gs with
  | nil => exact fun st => ⟨rfl, id⟩
  | cons g rest ih =>
    intro st
    constructor
    · rw [List.foldl_cons, (ih _).1]
      exact (applyGroup_spec st g).1
    · intro h
      rw [List.foldl_cons]
      exact (ih _).2 ((applyGroup_spec st g).2 h)

theorem expandLoop_spec : ∀ (fuel : Nat) (entries : List Entry) (names : List (List Char))
    (remaining : List (List Nat)),
    ((expandLoop fuel entries names remaining).map Entry.content = entries.map Entry.content) ∧
    (allUnlocked entries → allUnlocked (expandLoop fuel entries names remaining)) := by
  intro fuel
  induction fuel with
  | zero => exact fun entries names remaining => ⟨rfl, id⟩
  | succ fuel ih =>
    intro entries names remaining
    simp only [expandLoop]
    split
    · exact applyGroups_spec _ _
    · constructor
      · rw [(ih _ _ _).1, (applyGroups_spec _ _).1]
      · intro h
        exact (ih _ _ _).2 ((applyGroups_spec _ _).2 h)

theorem seedEntries_spec (l : List Entry) (groups : List (List Nat)) :
    ((seedEntries l groups).map Entry.content = l.map Entry.content) ∧
    (allUnlocked l → allUnlocked (seedEntries l groups)) := by
  unfold seedEntries
  split
  · constructor
    · rw [(expandLoop_spec _ _ _ _).1, (setAnnList_spec _ _ _).1, (setAnnList_spec _ _ _).1]
    · intro h
      exact (expandLoop_spec _ _ _ _).2
        ((setAnnList_spec _ _ _).2 ((setAnnList_spec _ _ _).2 h))
  · constructor
    · rw [(setAnnList_spec _ _ _).1, (setAnnList_spec _ _ _).1]
    · intro h
      exact (setAnnList_spec _ _ _).2 ((setAnnList_spec _ _ _).2 h)

theorem clusterPass_spec (l r : List Entry) (h : clusterPass l = .ok r) :
    r.map Entry.content = l.map Entry.content ∧ (allUnlocked l → allUnlocked r) := by
  simp only [clusterPass] at h
  split at h
  · cases h
    exact seedEntries_spec l _
  · split at h
    · cases h
    · cases h
      exact ⟨rfl, id⟩

/-- Entries built by the entry builder are unlocked. -/
theorem buildLoop_unlocked : ∀ (ls : List String) (bc pv : Nat) (cur : Option Entry),
    (∀ c, cur = some c → c.locked = false) → allUnlocked (buildLoop ls bc pv cur) := by
  intro ls
  induction ls with
  | nil =>
    intro bc pv cur hc e he
    cases cur with
    | none => cases he
    | some c =>
      rcases List.mem_cons.mp he with rfl | h2
      · exact hc e rfl
      · cases h2
  | cons l ls ih =>
    intro bc pv cur hc
    by_cases hb : (jsTrim l).length = 0
    · rw [buildLoop_step_blank _ _ _ _ _ hb]
      exact ih _ _ _ hc
    · cases cur with
      | none =>
        rw [buildLoop_step_first _ _ _ _ hb]
        exact ih _ _ _ fun c hcc => by cases hcc; rfl
      | some c =>
        by_cases hm : bc = 0 ∧ computeIndentation l = pv
        · rcases hm with ⟨rfl, hm2⟩
          rw [buildLoop_step_merge _ _ _ _ hb hm2]
          refine ih _ _ _ fun c2 hcc => ?_
          cases hcc
          exact hc c rfl
        · rw [buildLoop_step_new _ _ _ _ _ hb hm]
          intro e he
          rcases List.mem_cons.mp he with rfl | h2
          · exact hc e rfl
          · exact ih _ _ _ (fun c2 hcc => by cases hcc; rfl) e h2

theorem buildEntries_unlocked (lines : List String) : allUnlocked (buildEntries lines) :=
  buildLoop_unlocked lines 0 0 none fun c hc => by cases hc

/-! ### The instrumented builder and order preservation (C8) -/

theorem buildLoopIdx_cons (j : Nat) (l : String) (ls : List (Nat × String)) (bc pv : Nat)
    (cur : Option (Nat × Entry)) :
    buildLoopIdx ((j, l) :: ls) bc pv cur =
      if (jsTrim l).length = 0 then buildLoopIdx ls (bc + 1) (computeIndentation l) cur
      else
        match cur with
        | some c =>
          if bc = 0 ∧ computeIndentation l = pv then
            buildLoopIdx ls 0 (computeIndentation l)
              (some (c.1, { c.2 with content := jsTrimEnd c.2.content ++ " " ++ jsTrim l }))
          else c :: buildLoopIdx ls 0 (computeIndentation l) (some (j, ⟨l, .UNKNOWN, false⟩))
        | none => buildLoopIdx ls 0 (computeIndentation l) (some (j, ⟨l, .UNKNOWN, false⟩)) := rfl

theorem buildLoopIdx_step_blank (j : Nat) (l : String) (ls : List (Nat × String)) (bc pv : Nat)
    (cur : Option (Nat × Entry)) (h : (jsTrim l).length = 0) :
    buildLoopIdx ((j, l) :: ls) bc pv cur = buildLoopIdx ls (bc + 1) (computeIndentation l) cur := by
  rw [buildLoopIdx_cons, if_pos h]

theorem buildLoopIdx_step_first (j : Nat) (l : String) (ls : List (Nat × String)) (bc pv : Nat)
    (h : (jsTrim l).length ≠ 0) :
    buildLoopIdx ((j, l) :: ls) bc pv none =
      buildLoopIdx ls 0 (computeIndentation l) (some (j, ⟨l, .UNKNOWN, false⟩)) := by
  rw [buildLoopIdx_cons, if_neg h]

theorem buildLoopIdx_step_merge (j : Nat) (l : String) (ls : List (Nat × String)) (pv : Nat)
    (c : Nat × Entry) (h : (jsTrim l).length ≠ 0) (hi : computeIndentation l = pv) :
    buildLoopIdx ((j, l) :: ls) 0 pv (some c) =
      buildLoopIdx ls 0 (computeIndentation l)
        (some (c.1, { c.2 with content := jsTrimEnd c.2.content ++ " " ++ jsTrim l })) := by
  rw [buildLoopIdx_cons, if_neg h]
  show (if 0 = 0 ∧ computeIndentation l = pv then
      buildLoopIdx ls 0 (computeIndentation l)
        (some (c.1, { c.2 with content := jsTrimEnd c.2.content ++ " " ++ jsTrim l }))
    else c :: buildLoopIdx ls 0 (computeIndentation l) (some (j, ⟨l, Annot.UNKNOWN, false⟩))) = _
  rw [if_pos ⟨rfl, hi⟩]

theorem buildLoopIdx_step_new (j : Nat) (l : String) (ls : List (Nat × String)) (bc pv : Nat)
    (c : Nat × Entry) (h : (jsTrim l).length ≠ 0) (hn : ¬(bc = 0 ∧ computeIndentation l = pv)) :
    buildLoopIdx ((j, l) :: ls) bc pv (some c) =
      c :: buildLoopIdx ls 0 (computeIndentation l) (some (j, ⟨l, .UNKNOWN, false⟩)) := by
  rw [buildLoopIdx_cons, if_neg h]
  show (if bc = 0 ∧ computeIndentation l = pv then
      buildLoopIdx ls 0 (computeIndentation l)
        (some (c.1, { c.2 with content := jsTrimEnd c.2.content ++ " " ++ jsTrim l }))
    else c :: buildLoopIdx ls 0 (computeIndentation l) (some (j, ⟨l, Annot.UNKNOWN, false⟩))) = _
  rw [if_neg hn]

/-- The instrumented builder computes the same entries as the source
builder. -/
theorem buildLoopIdx_snd : ∀ (tl : List (Nat × String)) (bc pv : Nat)
    (cur : Option (Nat × Entry)),
    (buildLoopIdx tl bc pv cur).map Prod.snd =
      buildLoop (tl.map Prod.snd) bc pv (cur.map Prod.snd) := by
  intro tl
  induction tl with
  | nil =>
    intro bc pv cur
    cases cur <;> rfl
  | cons hd ls ih =>
    intro bc pv cur
    rcases hd with ⟨j, l⟩
    show (buildLoopIdx ((j, l) :: ls) bc pv cur).map Prod.snd =
      buildLoop (l :: ls.map Prod.snd) bc pv (cur.map Prod.snd)
    by_cases hb : (jsTrim l).length = 0
    · rw [buildLoopIdx_step_blank _ _ _ _ _ _ hb, buildLoop_step_blank _ _ _ _ _ hb, ih]
    · cases cur with
      | none =>
        rw [buildLoopIdx_step_first _ _ _ _ _ hb]
        show _ = buildLoop (l :: ls.map Prod.snd) bc pv none
        rw [buildLoop_step_first _ _ _ _ hb, ih]
        rfl
      | some c =>
        by_cases hm : bc = 0 ∧ computeIndentation l = pv
        · rcases hm with ⟨rfl, hm2⟩
          rw [buildLoopIdx_step_merge _ _ _ _ _ hb hm2]
          show _ = buildLoop (l :: ls.map Prod.snd) 0 pv (some c.2)
          rw [buildLoop_step_merge _ _ _ _ hb hm2, ih]
          rfl
        · rw [buildLoopIdx_step_new _ _ _ _ _ _ hb hm]
          show c.2 :: (buildLoopIdx ls 0 (computeIndentation l)
            (some (j, ⟨l, .UNKNOWN, false⟩))).map Prod.snd =
            buildLoop (l :: ls.map Prod.snd) bc pv (some c.2)
          rw [buildLoop_step_new _ _ _ _ _ hb hm, ih]
          rfl

theorem buildLoopIdx_fst_mem : ∀ (tl : List (Nat × String)) (bc pv : Nat)
    (cur : Option (Nat × Entry)) (x : Nat),
    x ∈ (buildLoopIdx tl bc pv cur).map Prod.fst →
    (∃ p, cur = some p ∧ x = p.1) ∨ x ∈ tl.map Prod.fst := by
  intro tl
  induction tl with
  | nil =>
    intro bc pv cur x hx
    cases cur with
    | none => cases hx
    | some p =>
      rcases List.mem_map.mp hx with ⟨q, hq, rfl⟩
      rcases List.mem_cons.mp hq with rfl | hq2
      · exact Or.inl ⟨q, rfl, rfl⟩
      · cases hq2
  | cons hd ls ih =>
    intro bc pv cur x hx
    rcases hd with ⟨j, l⟩
    by_cases hb : (jsTrim l).length = 0
    · rw [buildLoopIdx_step_blank _ _ _ _ _ _ hb] at hx
      rcases ih _ _ _ _ hx with h | h
      · exact Or.inl h
      · exact Or.inr (List.mem_cons.mpr (Or.inr h))
    · cases cur with
      | none =>
        rw [buildLoopIdx_step_first _ _ _ _ _ hb] at hx
        rcases ih _ _ _ _ hx with ⟨p, hp, rfl⟩ | h
        · cases hp
          exact Or.inr (List.mem_cons.mpr (Or.inl rfl))
        · exact Or.inr (List.mem_cons.mpr (Or.inr h))
      | some c =>
        by_cases hm : bc = 0 ∧ computeIndentation l = pv
        · rcases hm with ⟨rfl, hm2⟩
          rw [buildLoopIdx_step_merge _ _ _ _ _ hb hm2] at hx
          rcases ih _ _ _ _ hx with ⟨p, hp, rfl⟩ | h
          · cases hp
            exact Or.inl ⟨c, rfl, rfl⟩
          · exact Or.inr (List.mem_cons.mpr (Or.inr h))
        · rw [buildLoopIdx_step_new _ _ _ _ _ _ hb hm] at hx
          rw [List.map_cons] at hx
          rcases List.mem_cons.mp hx with rfl | hx2
          · exact Or.inl ⟨c, rfl, rfl⟩
          · rcases ih _ _ _ _ hx2 with ⟨p, hp, rfl⟩ | h
            · cases hp
              exact Or.inr (List.mem_cons.mpr (Or.inl rfl))
            · exact Or.inr (List.mem_cons.mpr (Or.inr h))

theorem buildLoopIdx_sorted : ∀ (tl : List (Nat × String)) (bc pv : Nat)
    (cur : Option (Nat × Entry)),
    List.Pairwise (· < ·) (tl.map Prod.fst) →
    (∀ p, cur = some p → ∀ j ∈ tl.map Prod.fst, p.1 < j) →
    List.Pairwise (· < ·) ((buildLoopIdx tl bc pv cur).map Prod.fst) := by
  intro tl
  induction tl with
  | nil =>
    intro bc pv cur _ _
    cases cur with
    | none => exact List.Pairwise.nil
    | some p =>
      show List.Pairwise (fun a b => a < b) [p.1]
      exact List.pairwise_singleton _ _
  | cons hd ls ih =>
    intro bc pv cur hsort hcur
    rcases hd with ⟨j, l⟩
    rw [List.map_cons, List.pairwise_cons] at hsort
    by_cases hb : (jsTrim l).length = 0
    · rw [buildLoopIdx_step_blank _ _ _ _ _ _ hb]
      refine ih _ _ _ hsort.2 fun p hp k hk => ?_
      exact hcur p hp k (List.mem_cons.mpr (Or.inr hk))
    · cases cur with
      | none =>
        rw [buildLoopIdx_step_first _ _ _ _ _ hb]
        refine ih _ _ _ hsort.2 fun p hp k hk => ?_
        cases hp
        exact hsort.1 k hk
      | some c =>
        by_cases hm : bc = 0 ∧ computeIndentation l = pv
        · rcases hm with ⟨rfl, hm2⟩
          rw [buildLoopIdx_step_merge _ _ _ _ _ hb hm2]
          refine ih _ _ _ hsort.2 fun p hp k hk => ?_
          cases hp
          exact hcur c rfl k (List.mem_cons.mpr (Or.inr hk))
        · rw [buildLoopIdx_step_new _ _ _ _ _ _ hb hm, List.map_cons]
          rw [List.pairwise_cons]
          constructor
          · intro x hx
            rcases buildLoopIdx_fst_mem _ _ _ _ _ hx with ⟨p, hp, rfl⟩ | hx2
            · cases hp
              exact hcur c rfl j (List.mem_cons.mpr (Or.inl rfl))
            · exact Nat.lt_trans (hcur c rfl j (List.mem_cons.mpr (Or.inl rfl)))
                (hsort.1 x hx2)
          · refine ih _ _ _ hsort.2 fun p hp k hk => ?_
            cases hp
            exact hsort.1 k hk

theorem buildEntriesIdx_snd (lines : List String) :
    (buildEntriesIdx lines).map Prod.snd = buildEntries lines := by
  unfold buildEntriesIdx buildEntries
  rw [buildLoopIdx_snd, List.enum_map_snd]
  rfl

theorem buildEntriesIdx_sorted (lines : List String) :
    List.Pairwise (· < ·) ((buildEntriesIdx lines).map Prod.fst) := by
  refine buildLoopIdx_sorted _ 0 0 none ?_ fun p hp => by cases hp
  rw [List.enum_map_fst]
  exact List.pairwise_lt_range _

/-- C8: no pass reorders entries.  Whenever the pipeline completes, the
contents of the surviving output entries form a sublist (an
order-preserving selection) of the contents of the built entries; and the
built entries themselves are ordered by the index of the first physical
line contributing to each entry, as the instrumented builder shows. -/
theorem c8_order_preserved (raw : String) (out : List Entry) (h : parse raw = .ok out) :
    (out.map Entry.content).Sublist ((buildEntries (scriptLines raw)).map Entry.content) ∧
    (buildEntriesIdx (scriptLines raw)).map Prod.snd = buildEntries (scriptLines raw) ∧
    List.Pairwise (· < ·) ((buildEntriesIdx (scriptLines raw)).map Prod.fst) := by
  refine ⟨?_, buildEntriesIdx_snd _, buildEntriesIdx_sorted _⟩
  simp only [parse, annotateEntries] at h
  split at h
  · cases h
  · rename_i e1 heq1
    split at h
    · cases h
    · rename_i e8 heq8
      cases h
      have hpost := (stepShape_facts (postprocessPass_shape (lastSpeechPass e8))).1
      have hlast := (stepShape_facts (lastSpeechPass_shape e8)).1
      have hbound := (stepShape_facts (boundaryMeta_shape _ _ heq8)).1
      have hnarr := (stepShape_facts (narrativePass_shape
        (metaLexiconPass (speechPass (speechCuePass (sceneLexiconPass e1)))))).1
      have hmeta := (stepShape_facts (metaLexiconPass_shape
        (speechPass (speechCuePass (sceneLexiconPass e1))))).1
      have hspeech := (stepShape_facts (speechPass_shape (speechCuePass (sceneLexiconPass e1)))).1
      have hcue : (speechCuePass (sceneLexiconPass e1)).map Entry.content =
          (sceneLexiconPass e1).map Entry.content :=
        mapPass_content cueStep cueStep_content _
      have hscene : (sceneLexiconPass e1).map Entry.content = e1.map Entry.content :=
        mapPass_content sceneStep sceneStep_content _
      have hclust := (clusterPass_spec _ _ heq1).1
      have hXeq : (narrativePass (metaLexiconPass (speechPass
          (speechCuePass (sceneLexiconPass e1))))).map Entry.content =
          (buildEntries (scriptLines raw)).map Entry.content := by
        rw [hnarr, hmeta, hspeech, hcue, hscene, hclust]
      rw [hpost, hlast, hbound, ← hXeq]
      exact (removalPass_facts _).1

/-- C8 witness at the example script. -/
theorem c8_order_witness :
    (exampleOut.map Entry.content).Sublist
      ((buildEntries (scriptLines exampleScript)).map Entry.content) ∧
    (buildEntriesIdx (scriptLines exampleScript)).map Prod.snd =
      buildEntries (scriptLines exampleScript) ∧
    List.Pairwise (· < ·) ((buildEntriesIdx (scriptLines exampleScript)).map Prod.fst) :=
  c8_order_preserved exampleScript exampleOut rfl

/-- C10: after entry creation every locked entry carries SCENE or
SPEECH_CUE, only the scene- and speech-cue lexicon passes introduce the
flag (together with those classifications), and a locked entry passes
through every later stage unchanged: the builder and cluster passes lock
nothing, the two lexicon passes lock exactly what they recolor, each later
pass preserves the locked-implies-Scene-or-SpeechCue invariant, and under
that invariant each later pass returns every locked entry at its position
(membership, for the deleting removal pass) unaltered. -/
theorem c10_locked_invariant :
    (∀ lines, allUnlocked (buildEntries lines)) ∧
    (∀ l r, allUnlocked l → clusterPass l = .ok r → allUnlocked r) ∧
    (∀ l, allUnlocked l → lockedInv (sceneLexiconPass l)) ∧
    (∀ l, lockedInv l → lockedInv (speechCuePass l)) ∧
    (∀ l, lockedInv l →
      lockedInv (speechPass l) ∧ lockedInv (metaLexiconPass l) ∧
      lockedInv (narrativePass l) ∧ lockedInv (removalPass l) ∧
      lockedInv (lastSpeechPass l) ∧ lockedInv (postprocessPass l)) ∧
    (∀ l r, lockedInv l → boundaryMeta l = .ok r → lockedInv r) ∧
    (∀ l j e, lockedInv l → l.get? j = some e → e.locked = true →
      (sceneLexiconPass l).get? j = some e ∧ (speechCuePass l).get? j = some e ∧
      (speechPass l).get? j = some e ∧ (metaLexiconPass l).get? j = some e ∧
      (narrativePass l).get? j = some e ∧ (lastSpeechPass l).get? j = some e ∧
      (postprocessPass l).get? j = some e ∧ e ∈ removalPass l) ∧
    (∀ l r j e, lockedInv l → boundaryMeta l = .ok r → l.get? j = some e →
      e.locked = true → r.get? j = some e) := by
  refine ⟨buildEntries_unlocked, ?_, ?_, ?_, ?_, ?_, ?_, ?_⟩
  · exact fun l r hu hc => (clusterPass_spec l r hc).2 hu
  · exact fun l hu =>
      mapPass_lockedInv sceneStep sceneStep_fix sceneStep_shape l (allUnlocked_lockedInv hu)
  · exact fun l hinv => mapPass_lockedInv cueStep cueStep_fix cueStep_shape l hinv
  · intro l hinv
    exact ⟨(stepShape_facts (speechPass_shape l)).2.1 hinv,
      (stepShape_facts (metaLexiconPass_shape l)).2.1 hinv,
      (stepShape_facts (narrativePass_shape l)).2.1 hinv,
      (removalPass_facts l).2.1 hinv,
      (stepShape_facts (lastSpeechPass_shape l)).2.1 hinv,
      (stepShape_facts (postprocessPass_shape l)).2.1 hinv⟩
  · exact fun l r hinv hok => (stepShape_facts (boundaryMeta_shape l r hok)).2.1 hinv
  · intro l j e hinv hj hlock
    exact ⟨mapPass_pointwise sceneStep sceneStep_fix l hinv j e hj hlock,
      mapPass_pointwise cueStep cueStep_fix l hinv j e hj hlock,
      (stepShape_facts (speechPass_shape l)).2.2.1 hinv j e hj hlock,
      (stepShape_facts (metaLexiconPass_shape l)).2.2.1 hinv j e hj hlock,
      (stepShape_facts (narrativePass_shape l)).2.2.1 hinv j e hj hlock,
      (stepShape_facts (lastSpeechPass_shape l)).2.2.1 hinv j e hj hlock,
      (stepShape_facts (postprocessPass_shape l)).2.2.1 hinv j e hj hlock,
      (removalPass_facts l).2.2.1 hinv e (List.get?_mem hj) hlock⟩
  · exact fun l r j e hinv hok hj hlock =>
      (stepShape_facts (boundaryMeta_shape l r hok)).2.2.1 hinv j e hj hlock

/-- C10 witness: a locked SCENE entry survives the postprocessing corrector
unchanged at its position. -/
theorem c10_locked_witness :
    (postprocessPass [⟨"INT. K", .SCENE, true⟩, ⟨"x", .UNKNOWN, false⟩]).get? 0 =
      some ⟨"INT. K", .SCENE, true⟩ :=
  (c10_locked_invariant.2.2.2.2.2.2.1 [⟨"INT. K", .SCENE, true⟩, ⟨"x", .UNKNOWN, false⟩] 0
    ⟨"INT. K", .SCENE, true⟩ (by unfold lockedInv; decide) rfl rfl).2.2.2.2.2.2.1

/-- The scene lexicon pass marks every unlocked entry whose content is the
kitchen scene heading as SCENE, locked. -/
theorem sceneKeep_establish (l : List Entry) (hu : allUnlocked l) :
    ∀ e2 ∈ sceneLexiconPass l, e2.content = "INT. KITCHEN - DAY" →
      e2.annot = Annot.SCENE ∧ e2.locked = true := by
  intro e2 he2 hc
  rcases List.mem_map.mp he2 with ⟨e, he, rfl⟩
  have hec : e.content = "INT. KITCHEN - DAY" := by
    rw [← sceneStep_content e, hc]
  have hcond : (e.annot = Annot.UNKNOWN ∨ e.locked = false) ∧
      sceneLexiconMatch (removeFirstBold e.content.data) = true := by
    refine ⟨Or.inr (hu e he), ?_⟩
    rw [hec]
    decide
  unfold sceneStep
  rw [if_pos hcond]
  exact ⟨rfl, rfl⟩

/-- The scene marking survives any pass that keeps contents and locked
entries. -/
theorem sceneKeep_tame {A B : List Entry}
    (ht : ∀ e2 ∈ B, ∃ e ∈ A, e2.content = e.content ∧ (e.locked = true → e2 = e))
    (hP : ∀ e ∈ A, e.content = "INT. KITCHEN - DAY" →
      e.annot = Annot.SCENE ∧ e.locked = true) :
    ∀ e2 ∈ B, e2.content = "INT. KITCHEN - DAY" →
      e2.annot = Annot.SCENE ∧ e2.locked = true := by
  intro e2 he2 hc
  rcases ht e2 he2 with ⟨e, he, hce, hlk⟩
  have hPe := hP e he (by rw [← hce, hc])
  rw [hlk hPe.2]
  exact hPe

/-- C6: every entry of a completed run whose content is the kitchen scene
heading is classified SCENE, whatever the indentation clustering decided:
the scene lexicon pass locks it as SCENE (nothing is locked before that
pass) and every later pass preserves locked SCENE entries. -/
theorem c6_scene_always (raw : String) (out : List Entry) (h : parse raw = .ok out) :
    ∀ e ∈ out, e.content = "INT. KITCHEN - DAY" → e.annot = Annot.SCENE := by
  simp only [parse, annotateEntries] at h
  split at h
  · cases h
  · rename_i e1 heq1
    split at h
    · cases h
    · rename_i e8 heq8
      cases h
      have hu1 : allUnlocked e1 := (clusterPass_spec _ _ heq1).2 (buildEntries_unlocked _)
      have inv2 : lockedInv (sceneLexiconPass e1) :=
        mapPass_lockedInv sceneStep sceneStep_fix sceneStep_shape e1 (allUnlocked_lockedInv hu1)
      have P2 := sceneKeep_establish e1 hu1
      have inv3 : lockedInv (speechCuePass (sceneLexiconPass e1)) :=
        mapPass_lockedInv cueStep cueStep_fix cueStep_shape _ inv2
      have P3 := sceneKeep_tame (mapPass_tame cueStep cueStep_content cueStep_fix _ inv2) P2
      have inv4 := (stepShape_facts (speechPass_shape (speechCuePass (sceneLexiconPass e1)))).2.1 inv3
      have P4 := sceneKeep_tame
        ((stepShape_facts (speechPass_shape (speechCuePass (sceneLexiconPass e1)))).2.2.2 inv3) P3
      have inv5 := (stepShape_facts (metaLexiconPass_shape _)).2.1 inv4
      have P5 := sceneKeep_tame ((stepShape_facts (metaLexiconPass_shape _)).2.2.2 inv4) P4
      have inv6 := (stepShape_facts (narrativePass_shape _)).2.1 inv5
      have P6 := sceneKeep_tame ((stepShape_facts (narrativePass_shape _)).2.2.2 inv5) P5
      have inv7 := (removalPass_facts _).2.1 inv6
      have P7 := sceneKeep_tame (removalPass_facts _).2.2.2 P6
      have inv8 := (stepShape_facts (boundaryMeta_shape _ _ heq8)).2.1 inv7
      have P8 := sceneKeep_tame ((stepShape_facts (boundaryMeta_shape _ _ heq8)).2.2.2 inv7) P7
      have inv9 := (stepShape_facts (lastSpeechPass_shape e8)).2.1 inv8
      have P9 := sceneKeep_tame ((stepShape_facts (lastSpeechPass_shape e8)).2.2.2 inv8) P8
      have P10 := sceneKeep_tame
        ((stepShape_facts (postprocessPass_shape (lastSpeechPass e8))).2.2.2 inv9) P9
      intro e he hc
      exact (P10 e he hc).1

/-- C6 witness: the example script completes and its kitchen heading entry
is SCENE. -/
theorem c6_scene_witness :
    parse exampleScript = .ok exampleOut ∧
    ∀ e ∈ exampleOut, e.content = "INT. KITCHEN - DAY" → e.annot = Annot.SCENE :=
  ⟨rfl, c6_scene_always exampleScript exampleOut rfl⟩

/-! ### The cluster gate (C7) -/

theorem insertDescBy_perm {α : Type} (sz : α → Nat) (x : α) :
    ∀ (l : List α), List.Perm (insertDescBy sz x l) (x :: l) := by
  intro l
  induction l with
  | nil => exact List.Perm.refl _
  | cons y ys ih =>
    unfold insertDescBy
    split
    · exact List.Perm.refl _
    · exact (ih.cons y).trans (List.Perm.swap x y ys)

theorem sortFold_perm {α : Type} (sz : α → Nat) :
    ∀ (l acc : List α),
      List.Perm (l.foldl (fun a x => insertDescBy sz x a) acc) (acc ++ l) := by
  intro l
  induction l with
  | nil =>
    intro acc
    simp
  | cons x xs ih =>
    intro acc
    rw [List.foldl_cons]
    refine (ih _).trans ?_
    refine (List.Perm.append_right xs (insertDescBy_perm sz x acc)).trans ?_
    exact List.perm_middle.symm

theorem sortDescBy_perm {α : Type} (sz : α → Nat) (l : List α) :
    List.Perm (sortDescBy sz l) l := by
  unfold sortDescBy
  simpa using sortFold_perm sz l []

theorem insertDescBy_sorted {α : Type} (sz : α → Nat) (x : α) :
    ∀ (l : List α), List.Pairwise (fun a b => sz b ≤ sz a) l →
      List.Pairwise (fun a b => sz b ≤ sz a) (insertDescBy sz x l) := by
  intro l
  induction l with
  | nil =>
    intro _
    exact List.pairwise_singleton _ _
  | cons y ys ih =>
    intro hs
    rw [List.pairwise_cons] at hs
    unfold insertDescBy
    split
    · rename_i hlt
      rw [List.pairwise_cons]
      refine ⟨?_, List.pairwise_cons.mpr hs⟩
      intro b hb
      rcases List.mem_cons.mp hb with rfl | hb
      · omega
      · have := hs.1 b hb
        omega
    · rename_i hge
      rw [List.pairwise_cons]
      constructor
      · intro b hb
        rcases List.mem_cons.mp ((insertDescBy_perm sz x ys).mem_iff.mp hb) with rfl | hb2
        · omega
        · exact hs.1 b hb2
      · exact ih hs.2

theorem sortFold_sorted {α : Type} (sz : α → Nat) :
    ∀ (l acc : List α), List.Pairwise (fun a b => sz b ≤ sz a) acc →
      List.Pairwise (fun a b => sz b ≤ sz a)
        (l.foldl (fun a x => insertDescBy sz x a) acc) := by
  intro l
  induction l with
  | nil => exact fun acc h => h
  | cons x xs ih =>
    intro acc h
    rw [List.foldl_cons]
    exact ih _ (insertDescBy_sorted sz x acc h)

theorem sortDescBy_sorted {α : Type} (sz : α → Nat) (l : List α) :
    List.Pairwise (fun a b => sz b ≤ sz a) (sortDescBy sz l) :=
  sortFold_sorted sz l [] List.Pairwise.nil

theorem ratio_gate1 (g n : Nat) : ((g : ℚ) > (n : ℚ) * (10 / 100)) ↔ n < 10 * g := by
  rw [gt_iff_lt, show (10 / 100 : ℚ) = 1 / 10 by norm_num, mul_one_div,
    div_lt_iff (by norm_num : (0 : ℚ) < 10)]
  constructor
  · intro hq
    have : n < g * 10 := by exact_mod_cast hq
    omega
  · intro hn
    have : n < g * 10 := by omega
    exact_mod_cast this

theorem ratio_gate2 (g n : Nat) : ((g : ℚ) > (n : ℚ) * (15 / 1000)) ↔ 3 * n < 200 * g := by
  rw [gt_iff_lt, show (15 / 1000 : ℚ) = 3 / 200 by norm_num, ← mul_div_assoc,
    div_lt_iff (by norm_num : (0 : ℚ) < 200)]
  constructor
  · intro hq
    have : n * 3 < g * 200 := by exact_mod_cast hq
    omega
  · intro hn
    have : n * 3 < g * 200 := by omega
    exact_mod_cast this

theorem ratio_gate3 (g n : Nat) : ((g : ℚ) > (n : ℚ) * (50 / 100)) ↔ n < 2 * g := by
  rw [gt_iff_lt, show (50 / 100 : ℚ) = 1 / 2 by norm_num, mul_one_div,
    div_lt_iff (by norm_num : (0 : ℚ) < 2)]
  constructor
  · intro hq
    have : n < g * 2 := by exact_mod_cast hq
    omega
  · intro hn
    have : n < g * 2 := by omega
    exact_mod_cast this

/-- The specification gate and the integer-exact source gate agree. -/
theorem gate_iff (l : List Entry) :
    clusterGateSpec l ↔
      clusterGateB l.length (sortedGroups l) (collectOccAux l 0 [] 0).2 = true := by
  unfold clusterGateSpec clusterGateB
  simp only [Bool.and_eq_true, decide_eq_true_eq]
  rw [ratio_gate1, ratio_gate2, ratio_gate3]
  constructor
  · rintro ⟨h1, h2, h3, h4⟩
    exact ⟨⟨⟨h1, h2⟩, h3⟩, h4⟩
  · rintro ⟨⟨⟨h1, h2⟩, h3⟩, h4⟩
    exact ⟨h1, h2, h3, h4⟩

/-- C7: the cluster analyzer performs its CHARACTER/SCENE seeding exactly
when the four gate conditions hold (stated over exact rational percentages
on one side and the source comparison on the other): when the gate passes
the result is the seeded entry list, and when it fails the entries are
returned unchanged (or, with fewer than two groups, the rejection
diagnostics throw).  The sorted group list is a permutation of the
collected groups ordered by descending size, so its first two members are
the largest and second-largest groups. -/
theorem c7_cluster_gate (l : List Entry) :
    (clusterGateSpec l ↔
      clusterGateB l.length (sortedGroups l) (collectOccAux l 0 [] 0).2 = true) ∧
    (clusterGateB l.length (sortedGroups l) (collectOccAux l 0 [] 0).2 = true →
      clusterPass l = .ok (seedEntries l (sortedGroups l))) ∧
    (clusterGateB l.length (sortedGroups l) (collectOccAux l 0 [] 0).2 = false →
      (2 ≤ (sortedGroups l).length ∧ clusterPass l = .ok l) ∨
      ((sortedGroups l).length < 2 ∧ clusterPass l =
        .error "TypeError: cannot read length of undefined group in rejection diagnostics")) ∧
    List.Perm (sortedGroups l) ((collectOccAux l 0 [] 0).1.map Prod.snd) ∧
    List.Pairwise (fun a b => b.length ≤ a.length) (sortedGroups l) := by
  refine ⟨gate_iff l, ?_, ?_, sortDescBy_perm _ _, sortDescBy_sorted _ _⟩
  · intro hg
    unfold sortedGroups at hg ⊢
    simp only [clusterPass]
    rw [if_pos hg]
  · intro hg
    unfold sortedGroups at hg ⊢
    simp only [clusterPass]
    rw [if_neg (by rw [hg]; exact Bool.false_ne_true)]
    by_cases h2 : (sortDescBy List.length ((collectOccAux l 0 [] 0).1.map Prod.snd)).length < 2
    · right
      exact ⟨h2, by rw [if_pos h2]⟩
    · left
      exact ⟨by omega, by rw [if_neg h2]⟩

/-- C7 witness: the example script passes the gate and the pass returns the
seeded entries. -/
theorem c7_cluster_gate_witness :
    clusterPass (buildEntries (scriptLines exampleScript)) =
      .ok (seedEntries (buildEntries (scriptLines exampleScript))
        (sortedGroups (buildEntries (scriptLines exampleScript)))) :=
  (c7_cluster_gate (buildEntries (scriptLines exampleScript))).2.1 (by decide)
